import Mathlib

/-!
Verification development for the burndown core of `labours`
(`src/python/labours/burndown.py`).

Modelling conventions (shallow embedding):
* numpy float values are modelled by exact rationals `ℚ`; Python integer
  arithmetic on indices is modelled by `ℕ`/`ℤ` (with explicit `ℤ`
  subtraction wherever the Python expression can be negative);
* the mutable `daily` array is modelled as a total function
  `ℕ → ℕ → ℚ` updated functionally; cells never written keep the value
  `0`, matching `numpy.zeros` initialisation (and out-of-range reads of
  a numpy slice contribute nothing to slice sums, matching the total
  function being `0` outside the written region);
* every Python `for i in range(a, b)` loop becomes a structural
  recursion on the iteration count `b - a` (`ℕ` subtraction, so an
  empty Python range is an empty loop here as well);
* Python negative list indexing (`matrix[y][x-1]` when `x = 0`) is
  modelled by `mgetz`, which wraps negative indices by the row length,
  exactly as numpy does.
-/

/-- The daily matrix: row index (tick inside a band) × column index
(tick inside a sample) to the interpolated number of surviving lines. -/
abbrev Daily := ℕ → ℕ → ℚ

/-- Functional update of one cell of a `Daily` array
(`daily[i][j] = v`). -/
def upd (d : Daily) (i j : ℕ) (v : ℚ) : Daily :=
  fun i' j' => if i' = i ∧ j' = j then v else d i' j'

/-- Element access `matrix[y][x]` for a nonnegative column index. -/
def mget (M : List (List ℚ)) (y x : ℕ) : ℚ :=
  (M.getD y []).getD x 0

/-- Element access `matrix[y][x]` with Python/numpy semantics for a
possibly negative column index (a negative index wraps by the row
length, e.g. `matrix[y][-1]` is the last column). -/
def mgetz (M : List (List ℚ)) (y : ℕ) (x : ℤ) : ℚ :=
  let row := M.getD y []
  row.getD (if x < 0 then (x + row.length).toNat else x.toNat) 0

/-- Number of rows (`matrix.shape[0]`). -/
def mrows (M : List (List ℚ)) : ℕ := M.length

/-- Number of columns (`matrix.shape[1]`; the matrix is rectangular). -/
def mcols (M : List (List ℚ)) : ℕ := (M.headD []).length

/-- Inner loop of `decay`:
`for j in range(j0, j0 + n): daily[i][j] = initial * (1 + (k - 1) * (j - start_index + 1) / scale)`. -/
def decayJ (i start : ℕ) (initial k scale : ℚ) : ℕ → ℕ → Daily → Daily
  | _, 0, d => d
  | j0, n + 1, d =>
      decayJ i start initial k scale (j0 + 1) n
        (upd d i j0 (initial * (1 + (k - 1) * (((j0 : ℤ) - (start : ℤ) + 1 : ℤ) : ℚ) / scale)))

/-- Outer loop of `decay`:
`for i in range(i0, i0 + m): initial = daily[i][start_index - 1]; <inner loop>`.
The source never calls `decay` with `start_index = 0`, so the `ℕ`
subtraction `start - 1` agrees with the Python index there. -/
def decayI (start cnt : ℕ) (k scale : ℚ) : ℕ → ℕ → Daily → Daily
  | _, 0, d => d
  | i0, m + 1, d =>
      decayI start cnt k scale (i0 + 1) m
        (decayJ i0 start (d i0 (start - 1)) k scale start cnt d)

/-- The `decay(start_index, start_val)` closure of
`interpolate_burndown_matrix` (for the cell `(y, x)` being processed):
if `start_val == 0` return; otherwise `k = matrix[y][x] / start_val`,
`scale = (x + 1) * sampling - start_index`, and the two nested loops
write rows `[y*granularity, (y+1)*granularity)`, columns
`[start_index, (x+1)*sampling)`. -/
def decay (M : List (List ℚ)) (g s y x : ℕ) (start : ℕ) (sval : ℚ) (d : Daily) : Daily :=
  if sval = 0 then d
  else
    let k : ℚ := mget M y x / sval
    let scale : ℤ := ((x + 1) * s : ℤ) - (start : ℤ)
    decayI start ((x + 1) * s - start) k (scale : ℚ) (y * g) ((y + 1) * g - y * g) d

/-- Inner loop of the first (triangular) fill of `grow`:
`for i in range(i0, i0 + m): daily[i][j] = avg`. -/
def fillColRows (j : ℕ) (avg : ℚ) : ℕ → ℕ → Daily → Daily
  | _, 0, d => d
  | i0, m + 1, d => fillColRows j avg (i0 + 1) m (upd d i0 j avg)

/-- Outer loop of the triangular fill:
`for j in range(j0, j0 + n): for i in range(startRow, j + 1): daily[i][j] = avg`.
Used both by `grow` (with `startRow = start_index`) and by the case-1
uniform fill (with `startRow = y*granularity`). -/
def fillTriJ (startRow : ℕ) (avg : ℚ) : ℕ → ℕ → Daily → Daily
  | _, 0, d => d
  | j0, n + 1, d => fillTriJ startRow avg (j0 + 1) n (fillColRows j0 avg startRow (j0 + 1 - startRow) d)

/-- Inner loop of the back-propagation copy of `grow`:
`for i in range(i0, i0 + m): daily[i][j] = daily[i][j - 1]`. -/
def copyColRows (j : ℕ) : ℕ → ℕ → Daily → Daily
  | _, 0, d => d
  | i0, m + 1, d => copyColRows j (i0 + 1) m (upd d i0 j (d i0 (j - 1)))

/-- Outer loop of the back-propagation copy:
`for j in range(j0, j0 + n): for i in range(r0, r0 + m): daily[i][j] = daily[i][j - 1]`.
The source only runs it with `r0 = y*granularity`, `m = x*sampling - y*granularity`
and `j0 = x*sampling ≥ 1` whenever the row range is nonempty. -/
def copyJ (r0 m : ℕ) : ℕ → ℕ → Daily → Daily
  | _, 0, d => d
  | j0, n + 1, d => copyJ r0 m (j0 + 1) n (copyColRows j0 r0 m d)

/-- The `grow(finish_index, finish_val)` closure of
`interpolate_burndown_matrix` (for the cell `(y, x)` being processed):
`initial = matrix[y][x-1] if x > 0 else 0`;
`start_index = max(x*sampling, y*granularity)`; if
`finish_index == start_index` return; otherwise fill the triangle
(columns `[x*sampling, finish_index)`, rows `[start_index, j]`) with
`avg = (finish_val - initial) / (finish_index - start_index)` and then
back-propagate rows `[y*granularity, x*sampling)` over the same
columns by copying the previous column. -/
def grow (M : List (List ℚ)) (g s y x : ℕ) (finish : ℕ) (fval : ℚ) (d : Daily) : Daily :=
  let initial : ℚ := if 0 < x then mget M y (x - 1) else 0
  let start : ℕ := if x * s < y * g then y * g else x * s
  if finish = start then d
  else
    let avg : ℚ := (fval - initial) / ((((finish : ℤ) - (start : ℤ)) : ℤ) : ℚ)
    let d1 := fillTriJ start avg (x * s) (finish - x * s) d
    copyJ (y * g) (x * s - y * g) (x * s) (finish - x * s) d1

/-- The `previous` value and the integer `scale` divisor computed by the
growth-then-decay straddle case (case 2) of the interpolator, exactly as
in the source:
if `x > 0 and (x - 1) * sampling >= y * granularity` then
`previous = matrix[y][x-2] if x > 1 else 0` and `scale = sampling`, else
`previous = 0` and `scale = sampling if x == 0 else x*sampling - y*granularity`. -/
def straddlePrevScale (M : List (List ℚ)) (g s y x : ℕ) : ℚ × ℤ :=
  if 0 < x ∧ (x - 1) * s ≥ y * g then
    ((if 1 < x then mget M y (x - 2) else 0), (s : ℤ))
  else
    (0, if x = 0 then (s : ℤ) else ((x * s : ℕ) : ℤ) - ((y * g : ℕ) : ℤ))

/-- The geometric regime of cell `(y, x)` as classified by the chain of
conditionals in `interpolate_burndown_matrix`: `0` = skipped future
cell, `1` = pure growth, `2` = growth-then-decay straddle, `3` = pure
decay. -/
def cellCase (g s y x : ℕ) : ℕ :=
  if y * g > (x + 1) * s then 0
  else if (y + 1) * g ≥ (x + 1) * s then 1
  else if (y + 1) * g ≥ x * s then 2
  else 3

/-- The peak value extrapolated from the two preceding sample values in
the straddle case:
`peak = v1 + (v1 - previous) / scale * delta` with
`v1 = matrix[y][x-1]`, `delta = (y+1)*granularity - x*sampling`. -/
def straddleBasePeak (M : List (List ℚ)) (g s y x : ℕ) : ℚ :=
  let v1 := mgetz M y ((x : ℤ) - 1)
  let delta : ℤ := (((y + 1) * g : ℕ) : ℤ) - ((x * s : ℕ) : ℤ)
  let ps := straddlePrevScale M g s y x
  v1 + (v1 - ps.1) / (ps.2 : ℚ) * (delta : ℚ)

/-- The peak value actually used by the straddle case: the extrapolated
peak, re-derived from the next column
(`k = (v2 - matrix[y][x+1]) / sampling`;
`peak = matrix[y][x] + k * ((x+1)*sampling - (y+1)*granularity)`) when
the current value `v2 = matrix[y][x]` exceeds the extrapolated peak and
`x` is not the last sample, or `v2` itself when it is. -/
def straddlePeak (M : List (List ℚ)) (g s y x : ℕ) : ℚ :=
  let v2 := mget M y x
  let peak0 := straddleBasePeak M g s y x
  if v2 > peak0 then
    if x < mcols M - 1 then
      let k : ℚ := (v2 - mget M y (x + 1)) / (s : ℚ)
      v2 + k * (((((x + 1) * s : ℕ) : ℤ) - (((y + 1) * g : ℕ) : ℤ) : ℤ) : ℚ)
    else v2
  else peak0

/-- Processing of one cell `(y, x)` of the burndown matrix: the body of
the double loop of `interpolate_burndown_matrix`, with the same chain of
conditionals and the same calls to `grow` and `decay` as the source. -/
def processCell (M : List (List ℚ)) (g s y x : ℕ) (d : Daily) : Daily :=
  if y * g > (x + 1) * s then d
  else if (y + 1) * g ≥ (x + 1) * s then
    if y * g ≤ x * s then
      grow M g s y x ((x + 1) * s) (mget M y x) d
    else if (x + 1) * s > y * g then
      let d1 := grow M g s y x ((x + 1) * s) (mget M y x) d
      let avg : ℚ := mget M y x / ((((x + 1) * s : ℕ) : ℤ) - ((y * g : ℕ) : ℤ) : ℚ)
      fillTriJ (y * g) avg (y * g) ((x + 1) * s - y * g) d1
    else d
  else if (y + 1) * g ≥ x * s then
    let peak := straddlePeak M g s y x
    decay M g s y x ((y + 1) * g) peak (grow M g s y x ((y + 1) * g) peak d)
  else
    decay M g s y x (x * s) (mgetz M y ((x : ℤ) - 1)) d

/-- The inner (`x`) loop of `interpolate_burndown_matrix`. -/
def interpX (M : List (List ℚ)) (g s y : ℕ) : ℕ → ℕ → Daily → Daily
  | _, 0, d => d
  | x0, n + 1, d => interpX M g s y (x0 + 1) n (processCell M g s y x0 d)

/-- The outer (`y`) loop of `interpolate_burndown_matrix`. -/
def interpY (M : List (List ℚ)) (g s : ℕ) : ℕ → ℕ → Daily → Daily
  | _, 0, d => d
  | y0, m + 1, d => interpY M g s (y0 + 1) m (interpX M g s y0 0 (mcols M) d)

/-- `interpolate_burndown_matrix(matrix, granularity, sampling)`: the
daily matrix of shape `(bands*granularity, samples*sampling)`, starting
from zeros and processing every cell `(y, x)` in row-major order. -/
def interpolate_burndown_matrix (M : List (List ℚ)) (g s : ℕ) : Daily :=
  interpY M g s 0 (mrows M) (fun _ _ => 0)

/-- Sum of one band's rows of the daily matrix at a fixed column:
`daily[y*granularity:(y+1)*granularity, j].sum()`. -/
def bandSum (g y : ℕ) (d : Daily) (j : ℕ) : ℚ :=
  ∑ i in Finset.Ico (y * g) ((y + 1) * g), d i j

/-- One iteration `i` of the scan loop of `fit_kaplan_meier`
(`for i in range(1, matrix.shape[1])`), acting on the state
`(entries, dead, T, W)`:
`diff = matrix[:, i-1] - matrix[:, i]`; `entries[diff < 0] = i`;
bands with `diff > 0` append a death `(i - entries[band], diff[band])`
to `(T, W)` in band order (numpy boolean indexing);
`entered = entries > 0` with `entered[0] = True`, and bands whose value
hit zero while entered join `dead`. -/
def kmStep (M : List (List ℚ)) (bands : ℕ)
    (st : List ℕ × List Bool × List ℤ × List ℚ) (i : ℕ) :
    List ℕ × List Bool × List ℤ × List ℚ :=
  let entries := st.1
  let dead := st.2.1
  let T := st.2.2.1
  let W := st.2.2.2
  let diff : ℕ → ℚ := fun b => mget M b (i - 1) - mget M b i
  let entries1 := (List.range bands).map (fun b => if diff b < 0 then i else entries.getD b 0)
  let deathsT := (List.range bands).filterMap
    (fun b => if 0 < diff b then some ((i : ℤ) - (entries1.getD b 0 : ℤ)) else none)
  let deathsW := (List.range bands).filterMap
    (fun b => if 0 < diff b then some (diff b) else none)
  let entered : ℕ → Prop := fun b => b = 0 ∨ 0 < entries1.getD b 0
  let dead1 := (List.range bands).map
    (fun b => dead.getD b false || decide (mget M b i = 0 ∧ entered b))
  (entries1, dead1, T ++ deathsT, W ++ deathsW)

/-- The event arrays built by `fit_kaplan_meier` before the external
fit is invoked: the duration array `T`, the weight array `W`, the
event-observed flags `E` and the number of censored entries appended at
the end.  After the scan, survivors (`nnzind`: entered — with band 0
always counted as entered — and never dead) are appended as censored
with duration `shape[1] - entries[band]` and weight equal to their last
column; `E = ones(len(T)); E[-nnzind.sum():] = 0` is modelled with
Python slice semantics: when the censored count is zero the slice
`E[-0:]` covers the whole array. -/
def fit_kaplan_meier_arrays (M : List (List ℚ)) :
    List ℤ × List ℚ × List Bool × ℕ :=
  let bands := mrows M
  let cols := mcols M
  let init : List ℕ × List Bool × List ℤ × List ℚ :=
    ((List.range bands).map (fun _ => 0), (List.range bands).map (fun _ => false), [], [])
  let st := ((List.range (cols - 1)).map (fun t => t + 1)).foldl (kmStep M bands) init
  let entries := st.1
  let dead := st.2.1
  let nnz : ℕ → Prop := fun b => (entries.getD b 0 ≠ 0 ∨ b = 0) ∧ ¬ dead.getD b false
  let censT := (List.range bands).filterMap
    (fun b => if nnz b then some ((cols : ℤ) - (entries.getD b 0 : ℤ)) else none)
  let censW := (List.range bands).filterMap
    (fun b => if nnz b then some (mget M b (cols - 1)) else none)
  let T2 := st.2.2.1 ++ censT
  let W2 := st.2.2.2 ++ censW
  let cens := censT.length
  let cut := if cens = 0 then 0 else T2.length - cens
  let E := (List.range T2.length).map (fun i => decide (i < cut))
  (T2, W2, E, cens)

/-- `floor_datetime(dt, duration)` from `labours/utils.py`:
`dt.timestamp() - dt.timestamp() % duration`, on integer-second
timestamps (Python `%` with a positive divisor returns a nonnegative
remainder, like `Int.emod`). -/
def floor_datetime (ts duration : ℤ) : ℤ := ts - ts % duration

/-- Gregorian calendar: leap year predicate (models the external
`datetime`/pandas calendar used by `load_burndown`). -/
def isLeap (y : ℤ) : Bool := decide ((y % 4 = 0 ∧ y % 100 ≠ 0) ∨ y % 400 = 0)

/-- Gregorian calendar: number of days of month `m` of year `y`. -/
def daysInMonth (y m : ℤ) : ℤ :=
  if m = 2 then (if isLeap y then 29 else 28)
  else if m = 4 ∨ m = 6 ∨ m = 9 ∨ m = 11 then 30
  else 31

/-- Gregorian calendar: day count since 1970-01-01 to `(y, m, d)`
(standard civil-from-days algorithm; models the external date
library). -/
def daysFromCivil (y m d : ℤ) : ℤ :=
  let y2 := y - (if m ≤ 2 then 1 else 0)
  let era := y2.fdiv 400
  let yoe := y2 - era * 400
  let mp := m + (if 2 < m then -3 else 9)
  let doy := (153 * mp + 2).fdiv 5 + d - 1
  let doe := yoe * 365 + yoe.fdiv 4 - yoe.fdiv 100 + doy
  era * 146097 + doe - 719468

/-- Gregorian calendar: `(year, month, day)` of a day count since
1970-01-01 (standard days-from-civil inverse; models the external date
library). -/
def civilFromDays (z : ℤ) : ℤ × ℤ × ℤ :=
  let z2 := z + 719468
  let era := z2.fdiv 146097
  let doe := z2 - era * 146097
  let yoe := (doe - doe.fdiv 1460 + doe.fdiv 36524 - doe.fdiv 146096).fdiv 365
  let y := yoe + era * 400
  let doy := doe - (365 * yoe + yoe.fdiv 4 - yoe.fdiv 100)
  let mp := (5 * doy + 2).fdiv 153
  let d := doy - (153 * mp + 2).fdiv 5 + 1
  let m := mp + (if mp < 10 then 3 else -9)
  (y + (if m ≤ 2 then 1 else 0), m, d)

/-- The `k`-th calendar boundary date produced by
`pandas.date_range(start, periods, freq)` for the anchored frequencies
used by `load_burndown`: for `"A"` the `k`-th December 31 on or after
`day0`, for `"M"` the `k`-th month end on or after `day0`; any other
frequency string is modelled as daily steps (the source only reaches
this function with `"A"`, `"M"` or a caller-supplied frequency). -/
def anchorDay (freq : String) (day0 : ℤ) (k : ℕ) : ℤ :=
  if freq = "A" then
    let c := civilFromDays day0
    daysFromCivil (c.1 + (k : ℤ)) 12 31
  else if freq = "M" then
    let c := civilFromDays day0
    let total : ℤ := c.1 * 12 + (c.2.1 - 1) + (k : ℤ)
    let y := total.fdiv 12
    let m := total.emod 12 + 1
    daysFromCivil y m (daysInMonth y m)
  else day0 + (k : ℤ)

/-- The `k`-th boundary timestamp: pandas anchored offsets keep the
start's time of day and move the date to the anchor. -/
def anchorTs (freq : String) (startTs : ℤ) (k : ℕ) : ℤ :=
  anchorDay freq (startTs.fdiv 86400) k * 86400 + startTs.emod 86400

/-- The `while date_granularity_sampling[-1] < finish` loop of
`load_burndown`: smallest `p ≥ 1` whose last boundary reaches `finish`
(with a fuel bound that is always sufficient, since anchors advance by
at least one day per step). -/
def dgsCountAux (startTs finish : ℤ) (freq : String) : ℕ → ℕ → ℕ
  | 0, p => p
  | fuel + 1, p =>
      if finish ≤ anchorTs freq startTs (p - 1) then p
      else dgsCountAux startTs finish freq fuel (p + 1)

/-- The boundary list `date_granularity_sampling` computed by
`load_burndown`: initially `[start]`, grown through
`pandas.date_range(start, periods, freq)` until the last boundary
reaches `finish`. -/
def dgsList (startTs finish : ℤ) (freq : String) : List ℤ :=
  if finish ≤ startTs then [startTs]
  else
    (List.range
        (dgsCountAux startTs finish freq ((finish - startTs).toNat / 86400 + 2) 1)).map
      (anchorTs freq startTs)

/-- The alias resolution `aliases = {"year": "A", "month": "M"};
resample = aliases.get(resample, resample)`. -/
def resampleAlias (r : String) : String :=
  if r = "year" then "A" else if r = "month" then "M" else r

/-- Termination measure of the fallback cascade: the `"A"` branch may
recurse once with `"month"`. -/
def modeRank (r : String) : ℕ := if r = "year" ∨ r = "A" then 1 else 0

/-- The header tuple `(start, last, sampling, granularity, tick)`
(integer-second timestamps and an integer tick; the source's `tick` is
a float that is an integer number of seconds in every produced
header). -/
structure Header where
  start : ℤ
  last : ℤ
  sampling : ℤ
  granularity : ℤ
  tick : ℤ
deriving DecidableEq

/-- `start` floored to a tick boundary
(`floor_datetime(datetime.fromtimestamp(start), tick)`; timestamps are
modelled in UTC). -/
def floorStart (header : Header) : ℤ := floor_datetime header.start header.tick

/-- `finish = start + timedelta(seconds=matrix.shape[1] * sampling * tick)`. -/
def finishTs (header : Header) (matrix : List (List ℚ)) : ℤ :=
  floorStart header + (mcols matrix : ℤ) * header.sampling * header.tick

/-- The result tuple of `load_burndown`:
`(name, matrix, date_range_sampling, labels, granularity, sampling, resample)`. -/
structure BurndownResult where
  name : String
  matrix : List (List ℚ)
  dateRange : List ℤ
  labels : List String
  granularity : ℤ
  sampling : ℤ
  resample : String
deriving DecidableEq

/-- Two-digit zero-padded decimal rendering. -/
def pad2 (n : ℤ) : String := if n < 10 then "0" ++ toString n else toString n

/-- ISO date rendering of a day count (Python `str(date)`). -/
def dateStr (day : ℤ) : String :=
  let c := civilFromDays day
  toString c.1 ++ "-" ++ pad2 c.2.1 ++ "-" ++ pad2 c.2.2

/-- English month name (Python `strftime("%B")`). -/
def monthName (m : ℤ) : String :=
  if m = 1 then "January" else if m = 2 then "February" else if m = 3 then "March"
  else if m = 4 then "April" else if m = 5 then "May" else if m = 6 then "June"
  else if m = 7 then "July" else if m = 8 then "August" else if m = 9 then "September"
  else if m = 10 then "October" else if m = 11 then "November" else "December"

/-- The resampled-matrix fill loop of `load_burndown` (lines 244-255):
for each new band `i`, `istart`/`ifinish` are the day offsets of the
surrounding boundaries, `j` is the first index of
`date_range_sampling` whose day offset reaches `istart` (or the last
index when none does, matching Python's leaked loop variable), and the
row holds the column sums of `daily[istart:ifinish, (sdt-start).days:]`
from column `j` on (numpy's equal-length requirement on the slice
assignment is not modelled; the total function `daily` is zero outside
its written region). -/
def resampleFill (startF : ℤ) (dailyZ : Daily) (dgs drs : List ℤ) : List (List ℚ) :=
  (List.range dgs.length).map fun i =>
    let istart : ℤ := if i = 0 then 0 else (dgs.getD (i - 1) 0 - startF).fdiv 86400
    let ifinish : ℤ := (dgs.getD i 0 - startF).fdiv 86400
    let j := ((List.range drs.length).find?
      (fun jj => istart ≤ (drs.getD jj 0 - startF).fdiv 86400)).getD (drs.length - 1)
    let off : ℤ := (drs.getD j 0 - startF).fdiv 86400
    (List.range drs.length).map fun c =>
      if c < j then 0
      else ∑ r in Finset.Ico istart.toNat ifinish.toNat, dailyZ r (off.toNat + (c - j))

/-- `load_burndown(header, name, matrix, resample)` modelled as a total
function returning `Except`: the two `assert`s become errors, the
survival reporting (print-only) is omitted, and the year→month fallback
is the recursive call of the source.  The source computes the `daily`
interpolation before the boundary loop; the model places that pure
computation in the only branch that reads it, which is observationally
identical.  In the `"no"`/`"raw"` branch the
matrix is returned unchanged and the effective resample mode is set to
the string `"M"`. -/
def load_burndown (header : Header) (name : String) (matrix : List (List ℚ))
    (resample : String) : Except String BurndownResult :=
  if ¬ (0 < header.sampling) then Except.error "AssertionError: sampling > 0"
  else if ¬ (0 < header.granularity) then Except.error "AssertionError: granularity > 0"
  else
    if ¬ (resample = "no" ∨ resample = "raw") then
      if finishTs header matrix <
          (dgsList (floorStart header) (finishTs header matrix)
            (resampleAlias resample)).headD (floorStart header) then
        if h : resampleAlias resample = "A" then
          load_burndown header name matrix "month"
        else
          Except.error ("Too loose resampling: " ++ resampleAlias resample ++ ". Try finer.")
      else
        let startF := floorStart header
        let finish := finishTs header matrix
        let daily := interpolate_burndown_matrix matrix header.granularity.toNat
          header.sampling.toNat
        let dailyZ : Daily := fun i j =>
          if (header.last - startF).fdiv 86400 ≤ (i : ℤ) then 0 else daily i j
        let resample2 := resampleAlias resample
        let dgs := dgsList startF finish resample2
        let drs := (List.range ((finish - dgs.headD startF).fdiv 86400).toNat).map
          (fun i => dgs.headD startF + (i : ℤ) * 86400)
        let labels :=
          if resample2 = "year" ∨ resample2 = "A" then
            dgs.map (fun t => toString (civilFromDays (t.fdiv 86400)).1)
          else if resample2 = "month" ∨ resample2 = "M" then
            dgs.map (fun t => toString (civilFromDays (t.fdiv 86400)).1 ++ " " ++
              monthName (civilFromDays (t.fdiv 86400)).2.1)
          else dgs.map (fun t => dateStr (t.fdiv 86400))
        Except.ok ⟨name, resampleFill startF dailyZ dgs drs, drs, labels,
          header.granularity, header.sampling, resample2⟩
    else
      let startF := floorStart header
      let labels := (List.range (mrows matrix)).map (fun i =>
        dateStr ((startF + (i : ℤ) * header.granularity * header.tick).fdiv 86400) ++
          " - " ++
          dateStr ((startF + ((i : ℤ) + 1) * header.granularity * header.tick).fdiv 86400))
      let drs := (List.range (mcols matrix)).map
        (fun i => startF + header.sampling * header.tick +
          (i : ℤ) * (header.sampling * 86400))
      Except.ok ⟨name, matrix, drs, labels, header.granularity, header.sampling, "M"⟩
termination_by modeRank resample
decreasing_by
  have h3 : resample = "year" ∨ resample = "A" := by
    by_cases h1 : resample = "year"
    · exact Or.inl h1
    · right
      by_cases h2 : resample = "month"
      · exact absurd h (by simp [resampleAlias, h1, h2])
      · simpa [resampleAlias, h1, h2] using h
  rcases h3 with h3 | h3 <;> simp [modeRank, h3]

/-- Pointwise description of the inner `decay` loop. -/
lemma decayJ_apply (i start : ℕ) (initial k scale : ℚ) :
    ∀ (n j0 : ℕ) (d : Daily) (i' j' : ℕ),
      decayJ i start initial k scale j0 n d i' j' =
        if i' = i ∧ j0 ≤ j' ∧ j' < j0 + n then
          initial * (1 + (k - 1) * (((j' : ℤ) - (start : ℤ) + 1 : ℤ) : ℚ) / scale)
        else d i' j' := by
  intro n
  induction n with
  | zero =>
      intro j0 d i' j'
      simp only [decayJ]
      rw [if_neg]
      rintro ⟨_, h1, h2⟩; omega
  | succ n ih =>
      intro j0 d i' j'
      rw [decayJ, ih]
      simp only [upd]
      by_cases hi : i' = i
      · subst hi
        by_cases hj : j' = j0
        · subst hj
          rw [if_neg (by omega), if_pos ⟨rfl, rfl⟩, if_pos (by omega)]
        · by_cases hr : j0 + 1 ≤ j' ∧ j' < j0 + 1 + n
          · rw [if_pos ⟨rfl, hr.1, hr.2⟩, if_pos (by omega)]
          · rw [if_neg (by tauto), if_neg (by tauto), if_neg (by omega)]
      · rw [if_neg (by tauto), if_neg (by tauto), if_neg (by tauto)]

/-- Pointwise description of the outer `decay` loop: every row in
`[i0, i0+m)` gets, on columns `[start, start+cnt)`, the value
`initial * ratio` where `initial` is the row's entry at column
`start - 1` in the array before the call. -/
lemma decayI_apply (start cnt : ℕ) (k scale : ℚ) :
    ∀ (m i0 : ℕ) (d : Daily) (i' j' : ℕ),
      decayI start cnt k scale i0 m d i' j' =
        if i0 ≤ i' ∧ i' < i0 + m ∧ start ≤ j' ∧ j' < start + cnt then
          d i' (start - 1) * (1 + (k - 1) * (((j' : ℤ) - (start : ℤ) + 1 : ℤ) : ℚ) / scale)
        else d i' j' := by
  intro m
  induction m with
  | zero =>
      intro i0 d i' j'
      simp only [decayI]
      rw [if_neg]
      rintro ⟨h1, h2, _⟩; omega
  | succ m ih =>
      intro i0 d i' j'
      rw [decayI, ih]
      have hne : ∀ j'' : ℕ, ¬ (start ≤ j'' ∧ j'' < start + cnt) →
          decayJ i0 start (d i0 (start - 1)) k scale start cnt d i' j'' = d i' j'' := by
        intro j'' hj''
        rw [decayJ_apply]
        exact if_neg (by tauto)
      by_cases hrow : i0 + 1 ≤ i' ∧ i' < i0 + 1 + m
      · by_cases hcol : start ≤ j' ∧ j' < start + cnt
        · rw [if_pos ⟨hrow.1, hrow.2, hcol.1, hcol.2⟩, if_pos (by omega)]
          congr 1
          rw [decayJ_apply]
          exact if_neg (by rintro ⟨h, _⟩; omega)
        · rw [if_neg (by tauto), if_neg (by tauto), hne j' hcol]
      · rw [if_neg (by tauto)]
        rw [decayJ_apply]
        by_cases hi : i' = i0
        · subst hi
          by_cases hcol : start ≤ j' ∧ j' < start + cnt
          · rw [if_pos ⟨rfl, hcol.1, hcol.2⟩, if_pos (by omega)]
          · rw [if_neg (by tauto), if_neg (by omega)]
        · rw [if_neg (by tauto), if_neg (by omega)]

/-- Pointwise description of the constant column fill. -/
lemma fillColRows_apply (j : ℕ) (avg : ℚ) :
    ∀ (m i0 : ℕ) (d : Daily) (i' j' : ℕ),
      fillColRows j avg i0 m d i' j' =
        if j' = j ∧ i0 ≤ i' ∧ i' < i0 + m then avg else d i' j' := by
  intro m
  induction m with
  | zero =>
      intro i0 d i' j'
      simp only [fillColRows]
      rw [if_neg]; rintro ⟨_, h1, h2⟩; omega
  | succ m ih =>
      intro i0 d i' j'
      rw [fillColRows, ih]
      simp only [upd]
      by_cases hj : j' = j
      · subst hj
        by_cases hi : i' = i0
        · subst hi
          rw [if_neg (by omega), if_pos ⟨rfl, rfl⟩, if_pos (by omega)]
        · by_cases hr : i0 + 1 ≤ i' ∧ i' < i0 + 1 + m
          · rw [if_pos ⟨rfl, hr.1, hr.2⟩, if_pos (by omega)]
          · rw [if_neg (by tauto), if_neg (by tauto), if_neg (by omega)]
      · rw [if_neg (by tauto), if_neg (by tauto), if_neg (by tauto)]

/-- Pointwise description of the triangular fill: on columns
`[j0, j0+n)` the rows `[startRow, j]` get the constant `avg`. -/
lemma fillTriJ_apply (startRow : ℕ) (avg : ℚ) :
    ∀ (n j0 : ℕ) (d : Daily) (i' j' : ℕ),
      fillTriJ startRow avg j0 n d i' j' =
        if j0 ≤ j' ∧ j' < j0 + n ∧ startRow ≤ i' ∧ i' ≤ j' then avg else d i' j' := by
  intro n
  induction n with
  | zero =>
      intro j0 d i' j'
      simp only [fillTriJ]
      rw [if_neg]; rintro ⟨h1, h2, _⟩; omega
  | succ n ih =>
      intro j0 d i' j'
      rw [fillTriJ, ih, fillColRows_apply]
      by_cases hcur : j' = j0 ∧ startRow ≤ i' ∧ i' ≤ j0
      · rw [if_neg (by omega), if_pos (by constructor; exact hcur.1; omega), if_pos (by omega)]
      · by_cases hrest : j0 + 1 ≤ j' ∧ j' < j0 + 1 + n ∧ startRow ≤ i' ∧ i' ≤ j'
        · rw [if_pos hrest, if_pos (by omega)]
        · rw [if_neg (by tauto), if_neg (by omega), if_neg (by omega)]

/-- Pointwise description of the inner copy loop: rows `[i0, i0+m)` of
column `j` receive the value of column `j - 1` of the array before the
call. -/
lemma copyColRows_apply (j : ℕ) :
    ∀ (m i0 : ℕ) (d : Daily) (i' j' : ℕ),
      copyColRows j i0 m d i' j' =
        if j' = j ∧ i0 ≤ i' ∧ i' < i0 + m then d i' (j - 1) else d i' j' := by
  intro m
  induction m with
  | zero =>
      intro i0 d i' j'
      simp only [copyColRows]
      rw [if_neg]; rintro ⟨_, h1, h2⟩; omega
  | succ m ih =>
      intro i0 d i' j'
      rw [copyColRows, ih]
      by_cases hi : i' = i0
      · subst hi
        rw [if_neg (by omega)]
        simp only [upd]
        by_cases hj : j' = j
        · rw [if_pos (by simp [hj]), if_pos (by omega)]
        · rw [if_neg (by omega), if_neg (by omega)]
      · simp only [upd]
        by_cases hr : j' = j ∧ i0 + 1 ≤ i' ∧ i' < i0 + 1 + m
        · rw [if_pos hr, if_neg (by omega), if_pos (by omega)]
        · rw [if_neg hr, if_neg (by omega), if_neg (by omega)]

/-- Pointwise description of the back-propagation copy: rows
`[r0, r0+m)` of all columns `[j0, j0+n)` receive the value the array
had at column `j0 - 1` before the call (the copies chain). -/
lemma copyJ_apply :
    ∀ (n : ℕ) (r0 m j0 : ℕ) (d : Daily) (i' j' : ℕ),
      copyJ r0 m j0 n d i' j' =
        if r0 ≤ i' ∧ i' < r0 + m ∧ j0 ≤ j' ∧ j' < j0 + n then d i' (j0 - 1) else d i' j' := by
  intro n
  induction n with
  | zero =>
      intro r0 m j0 d i' j'
      simp only [copyJ]
      rw [if_neg]; rintro ⟨_, _, h1, h2⟩; omega
  | succ n ih =>
      intro r0 m j0 d i' j'
      rw [copyJ, ih]
      simp only [Nat.add_sub_cancel]
      rw [copyColRows_apply, copyColRows_apply]
      by_cases hrow : r0 ≤ i' ∧ i' < r0 + m
      · by_cases hcol : j0 + 1 ≤ j' ∧ j' < j0 + 1 + n
        · rw [if_pos (by omega), if_pos (by omega), if_pos (by omega)]
        · by_cases hcur : j' = j0
          · rw [if_neg (by omega), if_pos (by omega), if_pos (by omega)]
          · rw [if_neg (by omega), if_neg (by omega), if_neg (by omega)]
      · rw [if_neg (by omega), if_neg (by omega), if_neg (by omega)]

/-- Pointwise description of `decay`: nothing happens if
`start_val == 0`; otherwise rows `[y*g, (y+1)*g)` on columns
`[start, (x+1)*s)` are set to the pre-call value of column `start - 1`
times the linearly interpolated ratio. -/
lemma decay_apply (M : List (List ℚ)) (g s y x start : ℕ) (sval : ℚ) (d : Daily) (i j : ℕ) :
    decay M g s y x start sval d i j =
      if sval = 0 then d i j
      else if y * g ≤ i ∧ i < (y + 1) * g ∧ start ≤ j ∧ j < (x + 1) * s then
        d i (start - 1) *
          (1 + (mget M y x / sval - 1) * (((j : ℤ) - (start : ℤ) + 1 : ℤ) : ℚ) /
            ((((x + 1) * s : ℤ) - (start : ℤ) : ℤ) : ℚ))
      else d i j := by
  rw [decay]
  by_cases h0 : sval = 0
  · rw [if_pos h0, if_pos h0]
  · rw [if_neg h0, if_neg h0, decayI_apply]
    by_cases hr : y * g ≤ i ∧ i < y * g + ((y + 1) * g - y * g) ∧ start ≤ j ∧
        j < start + ((x + 1) * s - start)
    · rw [if_pos hr, if_pos (by omega)]
    · rw [if_neg hr, if_neg (by omega)]

/-- Pointwise description of `grow` in the regime
`y*granularity ≤ x*sampling` (so `start_index = x*sampling`). -/
lemma grow_apply_ge (M : List (List ℚ)) (g s y x finish : ℕ) (fval : ℚ) (d : Daily)
    (i j : ℕ) (hx : y * g ≤ x * s) :
    grow M g s y x finish fval d i j =
      if finish = x * s then d i j
      else if y * g ≤ i ∧ i < x * s ∧ x * s ≤ j ∧ j < finish then d i (x * s - 1)
      else if x * s ≤ j ∧ j < finish ∧ x * s ≤ i ∧ i ≤ j then
        (fval - (if 0 < x then mget M y (x - 1) else 0)) /
          ((((finish : ℤ) - ((x * s : ℕ) : ℤ) : ℤ)) : ℚ)
      else d i j := by
  rw [grow]
  simp only [if_neg (show ¬ x * s < y * g by omega)]
  by_cases hg : finish = x * s
  · rw [if_pos hg, if_pos hg]
  · rw [if_neg hg, if_neg hg, copyJ_apply]
    by_cases hcopy : y * g ≤ i ∧ i < y * g + (x * s - y * g) ∧ x * s ≤ j ∧
        j < x * s + (finish - x * s)
    · have hcopyR : y * g ≤ i ∧ i < x * s ∧ x * s ≤ j ∧ j < finish := by omega
      have hfillL : ¬ (x * s ≤ x * s - 1 ∧ x * s - 1 < x * s + (finish - x * s) ∧
          x * s ≤ i ∧ i ≤ x * s - 1) := by omega
      rw [if_pos hcopy, fillTriJ_apply, if_neg hfillL, if_pos hcopyR]
    · rw [if_neg hcopy, fillTriJ_apply]
      by_cases hfill : x * s ≤ j ∧ j < x * s + (finish - x * s) ∧ x * s ≤ i ∧ i ≤ j
      · have hcopyR : ¬ (y * g ≤ i ∧ i < x * s ∧ x * s ≤ j ∧ j < finish) := by omega
        have hfillR : x * s ≤ j ∧ j < finish ∧ x * s ≤ i ∧ i ≤ j := by omega
        rw [if_pos hfill, if_neg hcopyR, if_pos hfillR]
      · have hcopyR : ¬ (y * g ≤ i ∧ i < x * s ∧ x * s ≤ j ∧ j < finish) := by omega
        have hfillR : ¬ (x * s ≤ j ∧ j < finish ∧ x * s ≤ i ∧ i ≤ j) := by omega
        rw [if_neg hfill, if_neg hcopyR, if_neg hfillR]

/-- Pointwise description of `grow` in the regime
`x*sampling < y*granularity` (so `start_index = y*granularity` and the
back-propagation loop is empty). -/
lemma grow_apply_lt (M : List (List ℚ)) (g s y x finish : ℕ) (fval : ℚ) (d : Daily)
    (i j : ℕ) (hx : x * s < y * g) :
    grow M g s y x finish fval d i j =
      if finish = y * g then d i j
      else if x * s ≤ j ∧ j < finish ∧ y * g ≤ i ∧ i ≤ j then
        (fval - (if 0 < x then mget M y (x - 1) else 0)) /
          ((((finish : ℤ) - ((y * g : ℕ) : ℤ) : ℤ)) : ℚ)
      else d i j := by
  rw [grow]
  simp only [if_pos hx]
  by_cases hg : finish = y * g
  · rw [if_pos hg, if_pos hg]
  · have hcopyL : ¬ (y * g ≤ i ∧ i < y * g + (x * s - y * g) ∧ x * s ≤ j ∧
        j < x * s + (finish - x * s)) := by omega
    rw [if_neg hg, if_neg hg, copyJ_apply, if_neg hcopyL, fillTriJ_apply]
    by_cases hfill : x * s ≤ j ∧ j < x * s + (finish - x * s) ∧ y * g ≤ i ∧ i ≤ j
    · have hfillR : x * s ≤ j ∧ j < finish ∧ y * g ≤ i ∧ i ≤ j := by omega
      rw [if_pos hfill, if_pos hfillR]
    · have hfillR : ¬ (x * s ≤ j ∧ j < finish ∧ y * g ≤ i ∧ i ≤ j) := by omega
      rw [if_neg hfill, if_neg hfillR]

/-- `grow` does not touch cells below the band start row, left of the
sample window, at or right of `finish_index`, or strictly above the
diagonal (every write of `grow` targets a row index at most the column
index). -/
lemma grow_frame (M : List (List ℚ)) (g s y x finish : ℕ) (fval : ℚ) (d : Daily)
    (i j : ℕ) (h : i < y * g ∨ j < x * s ∨ finish ≤ j ∨ j < i) :
    grow M g s y x finish fval d i j = d i j := by
  by_cases hx : y * g ≤ x * s
  · rw [grow_apply_ge M g s y x finish fval d i j hx]
    by_cases hgd : finish = x * s
    · rw [if_pos hgd]
    · rw [if_neg hgd, if_neg (by omega), if_neg (by omega)]
  · rw [grow_apply_lt M g s y x finish fval d i j (by omega)]
    by_cases hgd : finish = y * g
    · rw [if_pos hgd]
    · rw [if_neg hgd, if_neg (by omega)]

/-- `decay` does not touch cells outside the band's rows or outside the
columns `[start_index, (x+1)*sampling)`. -/
lemma decay_frame (M : List (List ℚ)) (g s y x start : ℕ) (sval : ℚ) (d : Daily)
    (i j : ℕ) (h : i < y * g ∨ (y + 1) * g ≤ i ∨ j < start ∨ (x + 1) * s ≤ j) :
    decay M g s y x start sval d i j = d i j := by
  rw [decay_apply]
  by_cases h0 : sval = 0
  · rw [if_pos h0]
  · rw [if_neg h0, if_neg (by omega)]

/-- Processing of one cell `(y, x)` only writes cells inside the block
of rows `[y*granularity, (y+1)*granularity)` and columns
`[x*sampling, (x+1)*sampling)`, and only at or below the diagonal
(row index at most column index). -/
lemma processCell_frame (M : List (List ℚ)) (g s y x : ℕ) (d : Daily) (i j : ℕ)
    (h : i < y * g ∨ (y + 1) * g ≤ i ∨ j < x * s ∨ (x + 1) * s ≤ j ∨ j < i) :
    processCell M g s y x d i j = d i j := by
  rw [processCell]
  by_cases c1 : y * g > (x + 1) * s
  · rw [if_pos c1]
  · rw [if_neg c1]
    by_cases c2 : (y + 1) * g ≥ (x + 1) * s
    · rw [if_pos c2]
      by_cases c3 : y * g ≤ x * s
      · rw [if_pos c3]
        exact grow_frame M g s y x ((x + 1) * s) (mget M y x) d i j (by omega)
      · rw [if_neg c3]
        by_cases c4 : (x + 1) * s > y * g
        · rw [if_pos c4]
          simp only [fillTriJ_apply]
          rw [if_neg (by omega)]
          exact grow_frame M g s y x ((x + 1) * s) (mget M y x) d i j (by omega)
        · rw [if_neg c4]
    · rw [if_neg c2]
      by_cases c5 : (y + 1) * g ≥ x * s
      · rw [if_pos c5]
        rw [decay_apply]
        rw [if_neg (show ¬ (y * g ≤ i ∧ i < (y + 1) * g ∧ (y + 1) * g ≤ j ∧
          j < (x + 1) * s) by omega)]
        rw [ite_self]
        exact grow_frame M g s y x ((y + 1) * g) _ d i j (by omega)
      · rw [if_neg c5]
        exact decay_frame M g s y x (x * s) (mgetz M y ((x : ℤ) - 1)) d i j (by omega)

/-- The inner interpolation loop starting at sample `x0` only writes
cells of band `y`, at columns `≥ x0*sampling`, at or below the
diagonal. -/
lemma interpX_frame (M : List (List ℚ)) (g s y : ℕ) :
    ∀ (n x0 : ℕ) (d : Daily) (i j : ℕ),
      (i < y * g ∨ (y + 1) * g ≤ i ∨ j < x0 * s ∨ j < i) →
      interpX M g s y x0 n d i j = d i j := by
  intro n
  induction n with
  | zero => intro x0 d i j _; rfl
  | succ n ih =>
      intro x0 d i j h
      have e1 : (x0 + 1) * s = x0 * s + s := by ring
      rw [interpX, ih (x0 + 1) _ i j (by omega)]
      exact processCell_frame M g s y x0 d i j (by omega)

/-- The outer interpolation loop starting at band `y0` does not touch
rows below `y0*granularity`. -/
lemma interpY_frame_lo (M : List (List ℚ)) (g s : ℕ) :
    ∀ (m y0 : ℕ) (d : Daily) (i j : ℕ), i < y0 * g →
      interpY M g s y0 m d i j = d i j := by
  intro m
  induction m with
  | zero => intro y0 d i j _; rfl
  | succ m ih =>
      intro y0 d i j h
      have e1 : (y0 + 1) * g = y0 * g + g := by ring
      rw [interpY, ih (y0 + 1) _ i j (by omega)]
      exact interpX_frame M g s y0 (mcols M) 0 d i j (by omega)

/-- The outer interpolation loop over bands `[y0, y0+m)` does not touch
rows at or above `(y0+m)*granularity`. -/
lemma interpY_frame_hi (M : List (List ℚ)) (g s : ℕ) :
    ∀ (m y0 : ℕ) (d : Daily) (i j : ℕ), (y0 + m) * g ≤ i →
      interpY M g s y0 m d i j = d i j := by
  intro m
  induction m with
  | zero => intro y0 d i j _; rfl
  | succ m ih =>
      intro y0 d i j h
      have e1 : (y0 + (m + 1)) * g = (y0 + 1 + m) * g := by ring
      have e2 : (y0 + 1 + m) * g = (y0 + 1) * g + m * g := by ring
      have e3 : (y0 + 1) * g = y0 * g + g := by ring
      rw [interpY, ih (y0 + 1) _ i j (by omega)]
      exact interpX_frame M g s y0 (mcols M) 0 d i j (by omega)

/-- The outer interpolation loop preserves the strict upper-triangular
zero region: if every cell with row index above its column index is
zero, this remains so. -/
lemma interpY_tri (M : List (List ℚ)) (g s : ℕ) :
    ∀ (m y0 : ℕ) (d : Daily), (∀ i j, j < i → d i j = 0) →
      ∀ i j, j < i → interpY M g s y0 m d i j = 0 := by
  intro m
  induction m with
  | zero => intro y0 d hd i j hij; exact hd i j hij
  | succ m ih =>
      intro y0 d hd i j hij
      rw [interpY]
      refine ih (y0 + 1) _ ?_ i j hij
      intro i' j' hij'
      rw [interpX_frame M g s y0 (mcols M) 0 d i' j' (by omega)]
      exact hd i' j' hij'

/-- `matrix[y][x-1]` via the wrapping accessor agrees with the plain
accessor when `x ≥ 1`. -/
lemma mgetz_sub_one (M : List (List ℚ)) (y x : ℕ) (hx : 0 < x) :
    mgetz M y ((x : ℤ) - 1) = mget M y (x - 1) := by
  rw [mgetz, mget]
  have h1 : ¬ ((x : ℤ) - 1 < 0) := by omega
  have h2 : ((x : ℤ) - 1).toNat = x - 1 := by omega
  rw [if_neg h1, h2]

/-- A band's row sum at a column strictly left of the band's first row
is zero under the upper-triangularity invariant. -/
lemma bandSum_zero_of_tri (g y : ℕ) (d : Daily) (j : ℕ)
    (htri : ∀ i j', j' < i → d i j' = 0) (hj : j < y * g) :
    bandSum g y d j = 0 := by
  rw [bandSum]
  refine Finset.sum_eq_zero ?_
  intro i hi
  rw [Finset.mem_Ico] at hi
  exact htri i j (by omega)

/-- Under upper-triangularity, the sum of a band's rows up to `x*s`
at column `x*s - 1` equals the full band sum at that column. -/
lemma bandSum_lower_part (g s y x : ℕ) (d : Daily)
    (htri : ∀ i j', j' < i → d i j' = 0)
    (hs : 0 < s) (hx : 0 < x) (hlo : y * g ≤ x * s) (hhi : x * s ≤ (y + 1) * g) :
    ∑ i in Finset.Ico (y * g) (x * s), d i (x * s - 1) = bandSum g y d (x * s - 1) := by
  rw [bandSum,
    ← Finset.sum_Ico_consecutive (fun i => d i (x * s - 1)) hlo hhi]
  have hz : ∑ i in Finset.Ico (x * s) ((y + 1) * g), d i (x * s - 1) = 0 := by
    refine Finset.sum_eq_zero ?_
    intro i hi
    rw [Finset.mem_Ico] at hi
    have hxs : 0 < x * s := by positivity
    exact htri i (x * s - 1) (by omega)
  rw [hz, add_zero]

/-- Band-sum after `grow(F, fval)` in the regime
`y*granularity ≤ x*sampling < F ≤ (y+1)*granularity`: at column `F - 1`
the band's rows sum to exactly `fval` (the triangular fill contributes
`fval - initial`, the back-propagated history contributes `initial`,
rows not yet started contribute zero). -/
lemma grow_bandSum_ge (M : List (List ℚ)) (g s y x F : ℕ) (fval : ℚ) (d : Daily)
    (hs : 0 < s)
    (c3 : y * g ≤ x * s) (hF1 : x * s < F) (hF2 : F ≤ (y + 1) * g)
    (htri : ∀ i j', j' < i → d i j' = 0)
    (hprev : 0 < x → bandSum g y d (x * s - 1) = mget M y (x - 1)) :
    bandSum g y (grow M g s y x F fval d) (F - 1) = fval := by
  have hgd : ¬ (F = x * s) := by omega
  set jS := F - 1 with hjS
  set ini : ℚ := if 0 < x then mget M y (x - 1) else 0 with hini
  rw [bandSum,
    ← Finset.sum_Ico_consecutive _ c3 (show x * s ≤ (y + 1) * g by omega),
    ← Finset.sum_Ico_consecutive _ (show x * s ≤ F by omega) hF2]
  have hpart1 : ∑ i in Finset.Ico (y * g) (x * s),
      grow M g s y x F fval d i jS = ini := by
    have hcongr : ∑ i in Finset.Ico (y * g) (x * s),
        grow M g s y x F fval d i jS =
        ∑ i in Finset.Ico (y * g) (x * s), d i (x * s - 1) := by
      refine Finset.sum_congr rfl ?_
      intro i hi
      rw [Finset.mem_Ico] at hi
      rw [grow_apply_ge M g s y x F fval d i jS c3, if_neg hgd, if_pos (by omega)]
    rw [hcongr]
    by_cases hx : 0 < x
    · rw [bandSum_lower_part g s y x d htri hs hx c3 (by omega), hprev hx, hini,
        if_pos hx]
    · have hxs : x * s = 0 := by
        have hx0 : x = 0 := by omega
        rw [hx0, zero_mul]
      have hyg : y * g = 0 := by omega
      rw [hini, if_neg hx, hxs, hyg]
      simp
  have hpart2 : ∑ i in Finset.Ico (x * s) F,
      grow M g s y x F fval d i jS = fval - ini := by
    have hcongr : ∑ i in Finset.Ico (x * s) F,
        grow M g s y x F fval d i jS =
        ∑ _i in Finset.Ico (x * s) F,
          (fval - ini) / ((((F : ℤ) - ((x * s : ℕ) : ℤ) : ℤ)) : ℚ) := by
      refine Finset.sum_congr rfl ?_
      intro i hi
      rw [Finset.mem_Ico] at hi
      rw [grow_apply_ge M g s y x F fval d i jS c3, if_neg hgd,
        if_neg (by omega), if_pos (by omega), hini]
    rw [hcongr, Finset.sum_const, Nat.card_Ico]
    have hden : ((((F : ℤ) - ((x * s : ℕ) : ℤ) : ℤ)) : ℚ) = ((F - x * s : ℕ) : ℚ) := by
      have : ((x * s : ℕ) : ℤ) ≤ (F : ℤ) := by omega
      push_cast [Nat.cast_sub (by omega : x * s ≤ F)]
      ring
    rw [hden, nsmul_eq_mul, mul_div_cancel₀]
    exact Nat.cast_ne_zero.mpr (by omega)
  have hpart3 : ∑ i in Finset.Ico F ((y + 1) * g),
      grow M g s y x F fval d i jS = 0 := by
    refine Finset.sum_eq_zero ?_
    intro i hi
    rw [Finset.mem_Ico] at hi
    rw [grow_frame M g s y x F fval d i jS (by omega)]
    exact htri i jS (by omega)
  rw [hpart1, hpart2, hpart3, add_zero]
  ring

/-- Band-sum after `grow(F, fval)` in the regime
`x*sampling < y*granularity < F ≤ (y+1)*granularity` (so
`start_index = y*granularity`, the back-propagation loop is empty and,
when `x > 0`, `matrix[y][x-1]` lies entirely before the band and is
structurally zero): at column `F - 1` the band's rows sum to `fval`. -/
lemma grow_bandSum_lt (M : List (List ℚ)) (g s y x F : ℕ) (fval : ℚ) (d : Daily)
    (c3 : x * s < y * g) (hF1 : y * g < F) (hF2 : F ≤ (y + 1) * g)
    (htri : ∀ i j', j' < i → d i j' = 0)
    (hini0 : (if 0 < x then mget M y (x - 1) else 0) = (0 : ℚ)) :
    bandSum g y (grow M g s y x F fval d) (F - 1) = fval := by
  have hgd : ¬ (F = y * g) := by omega
  set jS := F - 1 with hjS
  rw [bandSum, ← Finset.sum_Ico_consecutive _ (show y * g ≤ F by omega) hF2]
  have hpart1 : ∑ i in Finset.Ico (y * g) F,
      grow M g s y x F fval d i jS = fval := by
    have hcongr : ∑ i in Finset.Ico (y * g) F,
        grow M g s y x F fval d i jS =
        ∑ _i in Finset.Ico (y * g) F,
          (fval - (if 0 < x then mget M y (x - 1) else 0)) /
            ((((F : ℤ) - ((y * g : ℕ) : ℤ) : ℤ)) : ℚ) := by
      refine Finset.sum_congr rfl ?_
      intro i hi
      rw [Finset.mem_Ico] at hi
      rw [grow_apply_lt M g s y x F fval d i jS c3, if_neg hgd, if_pos (by omega)]
    rw [hcongr, Finset.sum_const, Nat.card_Ico, hini0]
    have hden : ((((F : ℤ) - ((y * g : ℕ) : ℤ) : ℤ)) : ℚ) = ((F - y * g : ℕ) : ℚ) := by
      push_cast [Nat.cast_sub (by omega : y * g ≤ F)]
      ring
    rw [hden, nsmul_eq_mul, sub_zero, mul_div_cancel₀]
    exact Nat.cast_ne_zero.mpr (by omega)
  have hpart2 : ∑ i in Finset.Ico F ((y + 1) * g),
      grow M g s y x F fval d i jS = 0 := by
    refine Finset.sum_eq_zero ?_
    intro i hi
    rw [Finset.mem_Ico] at hi
    rw [grow_frame M g s y x F fval d i jS (by omega)]
    exact htri i jS (by omega)
  rw [hpart1, hpart2, add_zero]

/-- Band-sum reconstruction step, pure growth with the band starting
strictly inside the sample window (case 1, `elif` sub-case): the final
uniform fill makes the band's rows sum to `matrix[y][x]` at the last
column of sample `x`. -/
lemma step_case1b (M : List (List ℚ)) (g s y x : ℕ) (d : Daily)
    (c3 : x * s < y * g) (c4 : y * g < (x + 1) * s) (c2 : (x + 1) * s ≤ (y + 1) * g)
    (htri : ∀ i j', j' < i → d i j' = 0) :
    bandSum g y
      (fillTriJ (y * g) (mget M y x / ((((x + 1) * s : ℕ) : ℤ) - ((y * g : ℕ) : ℤ) : ℚ))
        (y * g) ((x + 1) * s - y * g)
        (grow M g s y x ((x + 1) * s) (mget M y x) d)) ((x + 1) * s - 1)
      = mget M y x := by
  set jS := (x + 1) * s - 1 with hjS
  set avg : ℚ := mget M y x / ((((x + 1) * s : ℕ) : ℤ) - ((y * g : ℕ) : ℤ) : ℚ) with havg
  rw [bandSum, ← Finset.sum_Ico_consecutive _ (show y * g ≤ (x + 1) * s by omega) c2]
  have hpart1 : ∑ i in Finset.Ico (y * g) ((x + 1) * s),
      fillTriJ (y * g) avg (y * g) ((x + 1) * s - y * g)
        (grow M g s y x ((x + 1) * s) (mget M y x) d) i jS = mget M y x := by
    have hcongr : ∑ i in Finset.Ico (y * g) ((x + 1) * s),
        fillTriJ (y * g) avg (y * g) ((x + 1) * s - y * g)
          (grow M g s y x ((x + 1) * s) (mget M y x) d) i jS =
        ∑ _i in Finset.Ico (y * g) ((x + 1) * s), avg := by
      refine Finset.sum_congr rfl ?_
      intro i hi
      rw [Finset.mem_Ico] at hi
      rw [fillTriJ_apply, if_pos (by omega)]
    rw [hcongr, Finset.sum_const, Nat.card_Ico, havg, nsmul_eq_mul]
    have hlt : ((y * g : ℕ) : ℚ) < (((x + 1) * s : ℕ) : ℚ) := by exact_mod_cast c4
    rw [Nat.cast_sub (by omega : y * g ≤ (x + 1) * s)]
    push_cast
    push_cast at hlt
    have hne : (((x : ℚ) + 1) * (s : ℚ) - (y : ℚ) * (g : ℚ)) ≠ 0 := by linarith
    field_simp
  have hpart2 : ∑ i in Finset.Ico ((x + 1) * s) ((y + 1) * g),
      fillTriJ (y * g) avg (y * g) ((x + 1) * s - y * g)
        (grow M g s y x ((x + 1) * s) (mget M y x) d) i jS = 0 := by
    refine Finset.sum_eq_zero ?_
    intro i hi
    rw [Finset.mem_Ico] at hi
    rw [fillTriJ_apply, if_neg (by omega),
      grow_frame M g s y x ((x + 1) * s) (mget M y x) d i jS (by omega)]
    exact htri i jS (by omega)
  rw [hpart1, hpart2, add_zero]

/-- The ratio written by `decay` at the last column of sample `x` is
exactly `k`: the linear interpolation of the ratio from `1` to `k`
reaches `k` at column `(x+1)*sampling - 1`. -/
lemma decay_ratio_last (s x start : ℕ) (k : ℚ) (hs : 0 < s) (hlt : start < (x + 1) * s) :
    1 + (k - 1) * ((((x + 1) * s - 1 : ℕ) : ℤ) - (start : ℤ) + 1 : ℤ) /
      ((((x + 1) * s : ℤ) - (start : ℤ) : ℤ) : ℚ) = k := by
  have hsub : (((x + 1) * s - 1 : ℕ) : ℤ) = (((x + 1) * s : ℕ) : ℤ) - 1 := by omega
  rw [hsub]
  have hlt2 : ((start : ℚ)) < (((x + 1) * s : ℕ) : ℚ) := by exact_mod_cast hlt
  push_cast
  push_cast at hlt2
  have hne : ((x : ℚ) + 1) * s - start ≠ 0 := by linarith
  field_simp
  ring

/-- Band-sum reconstruction step, pure decay (case 3): after
`decay(x*sampling, matrix[y][x-1])`, the band's row sum at the last
column of sample `x` equals `matrix[y][x]`, provided entries are
nonnegative and rows are non-increasing. -/
lemma step_case3 (M : List (List ℚ)) (g s y x : ℕ) (d : Daily)
    (hg : 0 < g) (hs : 0 < s) (c : (y + 1) * g < x * s)
    (hy : y < mrows M) (hx : x < mcols M)
    (h1 : ∀ y' x', y' < mrows M → x' < mcols M → 0 ≤ mget M y' x')
    (h2 : ∀ y' x', y' < mrows M → x' + 1 < mcols M → mget M y' (x' + 1) ≤ mget M y' x')
    (hfut : ∀ i, y * g ≤ i → i < (y + 1) * g → ∀ j, x * s ≤ j → d i j = 0)
    (hprev : 0 < x → bandSum g y d (x * s - 1) = mget M y (x - 1)) :
    bandSum g y (decay M g s y x (x * s) (mgetz M y ((x : ℤ) - 1)) d) ((x + 1) * s - 1)
      = mget M y x := by
  have hx1 : 0 < x := by
    rcases Nat.eq_zero_or_pos x with h | h
    · exfalso
      rw [h, zero_mul] at c
      omega
    · exact h
  rw [mgetz_sub_one M y x hx1]
  have hxx : x - 1 + 1 = x := by omega
  have hmono : mget M y x ≤ mget M y (x - 1) := by
    have := h2 y (x - 1) hy (by omega)
    rwa [hxx] at this
  have hnn : 0 ≤ mget M y x := h1 y x hy hx
  set jS := (x + 1) * s - 1 with hjS
  have e1 : (x + 1) * s = x * s + s := by ring
  by_cases hv1 : mget M y (x - 1) = 0
  · have hcongr : bandSum g y (decay M g s y x (x * s) (mget M y (x - 1)) d) jS =
        bandSum g y d jS := by
      refine Finset.sum_congr rfl ?_
      intro i hi
      rw [decay_apply, if_pos hv1]
    rw [hcongr]
    have hz : bandSum g y d jS = 0 := by
      refine Finset.sum_eq_zero ?_
      intro i hi
      rw [Finset.mem_Ico] at hi
      exact hfut i hi.1 hi.2 jS (by omega)
    rw [hz]
    rw [hv1] at hmono
    linarith
  · have hcongr : bandSum g y (decay M g s y x (x * s) (mget M y (x - 1)) d) jS =
        ∑ i in Finset.Ico (y * g) ((y + 1) * g),
          d i (x * s - 1) * (mget M y x / mget M y (x - 1)) := by
      refine Finset.sum_congr rfl ?_
      intro i hi
      rw [Finset.mem_Ico] at hi
      rw [decay_apply, if_neg hv1, if_pos (by omega), hjS,
        decay_ratio_last s x (x * s) (mget M y x / mget M y (x - 1)) hs (by omega)]
    rw [hcongr, ← Finset.sum_mul]
    have hsum : ∑ i in Finset.Ico (y * g) ((y + 1) * g), d i (x * s - 1) =
        mget M y (x - 1) := hprev hx1
    rw [hsum, mul_div_cancel₀ _ hv1]

/-- Band-sum reconstruction step, growth-then-decay straddle (case 2):
whatever peak value `P` the source derived, after
`grow((y+1)*granularity, P)` and `decay((y+1)*granularity, P)` the
band's rows sum to `matrix[y][x]` at the last column of sample `x`,
provided `P = 0` forces `matrix[y][x] = 0` and, in the degenerate
sub-case `(y+1)*granularity = x*sampling` (where `grow` returns
immediately), `P` equals `matrix[y][x-1]`. -/
lemma step_case2 (M : List (List ℚ)) (g s y x : ℕ) (P : ℚ) (d : Daily)
    (hg : 0 < g) (hs : 0 < s)
    (cA : (y + 1) * g < (x + 1) * s) (cB : x * s ≤ (y + 1) * g)
    (hy : y < mrows M) (hx : x < mcols M)
    (h3 : ∀ y' x', y' < mrows M → x' < mcols M → (x' + 1) * s ≤ y' * g → mget M y' x' = 0)
    (htri : ∀ i j', j' < i → d i j' = 0)
    (hfut : ∀ i, y * g ≤ i → i < (y + 1) * g → ∀ j, x * s ≤ j → d i j = 0)
    (hprev : 0 < x → bandSum g y d (x * s - 1) = mget M y (x - 1))
    (hP0 : P = 0 → mget M y x = 0)
    (hPv : (y + 1) * g = x * s → P = mget M y (x - 1)) :
    bandSum g y
      (decay M g s y x ((y + 1) * g) P (grow M g s y x ((y + 1) * g) P d))
      ((x + 1) * s - 1) = mget M y x := by
  set s0 := (y + 1) * g with hs0
  set jS := (x + 1) * s - 1 with hjS
  have e1 : (x + 1) * s = x * s + s := by ring
  have e2 : (y + 1) * g = y * g + g := by ring
  by_cases hP : P = 0
  · have hcongr : bandSum g y (decay M g s y x s0 P (grow M g s y x s0 P d)) jS =
        bandSum g y d jS := by
      refine Finset.sum_congr rfl ?_
      intro i hi
      rw [Finset.mem_Ico] at hi
      rw [decay_apply, if_pos hP,
        grow_frame M g s y x s0 P d i jS (by omega)]
    rw [hcongr]
    have hz : bandSum g y d jS = 0 := by
      refine Finset.sum_eq_zero ?_
      intro i hi
      rw [Finset.mem_Ico] at hi
      exact hfut i hi.1 hi.2 jS (by omega)
    rw [hz, hP0 hP]
  · have hcongr : bandSum g y (decay M g s y x s0 P (grow M g s y x s0 P d)) jS =
        ∑ i in Finset.Ico (y * g) ((y + 1) * g),
          grow M g s y x s0 P d i (s0 - 1) * (mget M y x / P) := by
      refine Finset.sum_congr rfl ?_
      intro i hi
      rw [Finset.mem_Ico] at hi
      rw [decay_apply, if_neg hP, if_pos (by omega), hjS,
        decay_ratio_last s x s0 (mget M y x / P) hs (by omega)]
    rw [hcongr, ← Finset.sum_mul]
    have hS : ∑ i in Finset.Ico (y * g) ((y + 1) * g),
        grow M g s y x s0 P d i (s0 - 1) = P := by
      by_cases hxy : x * s < y * g
      · have hini0 : (if 0 < x then mget M y (x - 1) else 0) = (0 : ℚ) := by
          by_cases hxpos : 0 < x
          · rw [if_pos hxpos]
            have hxx : x - 1 + 1 = x := by omega
            exact h3 y (x - 1) hy (by omega) (by rw [hxx]; omega)
          · rw [if_neg hxpos]
        have := grow_bandSum_lt M g s y x s0 P d hxy (by omega) (by omega) htri hini0
        rw [bandSum] at this
        exact this
      · by_cases hgd : s0 = x * s
        · have hsum : ∑ i in Finset.Ico (y * g) ((y + 1) * g),
              grow M g s y x s0 P d i (s0 - 1) =
              ∑ i in Finset.Ico (y * g) ((y + 1) * g), d i (x * s - 1) := by
            refine Finset.sum_congr rfl ?_
            intro i hi
            rw [grow_apply_ge M g s y x s0 P d i (s0 - 1) (by omega), if_pos hgd, hgd]
          have hx1 : 0 < x := by
            rcases Nat.eq_zero_or_pos x with h0 | h
            · exfalso
              rw [h0, zero_mul] at hgd
              omega
            · exact h
          have hpv := hprev hx1
          rw [bandSum] at hpv
          rw [hsum, hpv, hPv (by omega)]
        · have := grow_bandSum_ge M g s y x s0 P d hs (by omega) (by omega) (by omega)
            htri hprev
          rw [bandSum] at this
          exact this
    rw [hS, mul_div_cancel₀ _ hP]

/-- If the straddle peak comes out as zero then the current cell value
is zero (uses nonnegativity and non-increasing rows: in the adjusted
branch the correction term is nonnegative, in the unadjusted branch
`v2 ≤ peak`). -/
lemma straddlePeak_zero (M : List (List ℚ)) (g s y x : ℕ)
    (hs : 0 < s) (hy : y < mrows M) (hx : x < mcols M)
    (cA : (y + 1) * g < (x + 1) * s)
    (h1 : ∀ y' x', y' < mrows M → x' < mcols M → 0 ≤ mget M y' x')
    (h2 : ∀ y' x', y' < mrows M → x' + 1 < mcols M → mget M y' (x' + 1) ≤ mget M y' x')
    (hP : straddlePeak M g s y x = 0) : mget M y x = 0 := by
  simp only [straddlePeak] at hP
  have hnn := h1 y x hy hx
  by_cases hadj : mget M y x > straddleBasePeak M g s y x
  · rw [if_pos hadj] at hP
    by_cases hlast : x < mcols M - 1
    · rw [if_pos hlast] at hP
      have hk : 0 ≤ (mget M y x - mget M y (x + 1)) / (s : ℚ) := by
        apply div_nonneg
        · have := h2 y x hy (by omega)
          linarith
        · positivity
      have hd : (0 : ℚ) ≤ (((((x + 1) * s : ℕ) : ℤ) - (((y + 1) * g : ℕ) : ℤ) : ℤ) : ℚ) := by
        have hz : (0 : ℤ) ≤ ((((x + 1) * s : ℕ) : ℤ) - (((y + 1) * g : ℕ) : ℤ) : ℤ) := by
          omega
        exact_mod_cast hz
      have hprod := mul_nonneg hk hd
      linarith
    · rw [if_neg hlast] at hP
      exact hP
  · rw [if_neg hadj] at hP
    push_neg at hadj
    rw [hP] at hadj
    linarith

/-- In the degenerate straddle sub-case where the band's end tick
coincides with the sample's start tick (`delta = 0`), the extrapolated
peak is exactly `matrix[y][x-1]` and no adjustment happens (the row is
non-increasing). -/
lemma straddlePeak_guard (M : List (List ℚ)) (g s y x : ℕ)
    (hg : 0 < g) (hs : 0 < s) (hy : y < mrows M) (hx : x < mcols M)
    (h2 : ∀ y' x', y' < mrows M → x' + 1 < mcols M → mget M y' (x' + 1) ≤ mget M y' x')
    (hgd : (y + 1) * g = x * s) : straddlePeak M g s y x = mget M y (x - 1) := by
  have e2 : (y + 1) * g = y * g + g := by ring
  have hx1 : 0 < x := by
    rcases Nat.eq_zero_or_pos x with h0 | h
    · exfalso
      rw [h0, zero_mul] at hgd
      omega
    · exact h
  have hd0 : ((((y + 1) * g : ℕ) : ℤ) - ((x * s : ℕ) : ℤ) : ℤ) = 0 := by omega
  have hbase : straddleBasePeak M g s y x = mget M y (x - 1) := by
    simp only [straddleBasePeak, hd0, Int.cast_zero, mul_zero, add_zero]
    exact mgetz_sub_one M y x hx1
  have hxx : x - 1 + 1 = x := by omega
  have hmono : mget M y x ≤ mget M y (x - 1) := by
    have := h2 y (x - 1) hy (by omega)
    rwa [hxx] at this
  simp only [straddlePeak, hbase]
  rw [if_neg (by push_neg; exact hmono)]

/-- Reconstruction step for one cell: processing cell `(y, x)` makes
the band's rows sum to `matrix[y][x]` at the last daily column of
sample `x`, for any matrix with nonnegative entries, non-increasing
rows and structural zeros in the future region. -/
lemma processCell_step (M : List (List ℚ)) (g s y x : ℕ) (d : Daily)
    (hg : 0 < g) (hs : 0 < s) (hy : y < mrows M) (hx : x < mcols M)
    (h1 : ∀ y' x', y' < mrows M → x' < mcols M → 0 ≤ mget M y' x')
    (h2 : ∀ y' x', y' < mrows M → x' + 1 < mcols M → mget M y' (x' + 1) ≤ mget M y' x')
    (h3 : ∀ y' x', y' < mrows M → x' < mcols M → (x' + 1) * s ≤ y' * g → mget M y' x' = 0)
    (htri : ∀ i j', j' < i → d i j' = 0)
    (hfut : ∀ i, y * g ≤ i → i < (y + 1) * g → ∀ j, x * s ≤ j → d i j = 0)
    (hprev : 0 < x → bandSum g y d (x * s - 1) = mget M y (x - 1)) :
    bandSum g y (processCell M g s y x d) ((x + 1) * s - 1) = mget M y x := by
  have e1 : (x + 1) * s = x * s + s := by ring
  have e2 : (y + 1) * g = y * g + g := by ring
  rw [processCell]
  by_cases c1 : y * g > (x + 1) * s
  · rw [if_pos c1, bandSum_zero_of_tri g y d _ htri (by omega)]
    exact (h3 y x hy hx (by omega)).symm
  · rw [if_neg c1]
    by_cases c2 : (y + 1) * g ≥ (x + 1) * s
    · rw [if_pos c2]
      by_cases c3 : y * g ≤ x * s
      · rw [if_pos c3]
        exact grow_bandSum_ge M g s y x ((x + 1) * s) (mget M y x) d hs c3 (by omega) c2
          htri hprev
      · rw [if_neg c3]
        by_cases c4 : (x + 1) * s > y * g
        · rw [if_pos c4]
          exact step_case1b M g s y x d (by omega) c4 c2 htri
        · rw [if_neg c4, bandSum_zero_of_tri g y d _ htri (by omega)]
          exact (h3 y x hy hx (by omega)).symm
    · rw [if_neg c2]
      by_cases c5 : (y + 1) * g ≥ x * s
      · rw [if_pos c5]
        refine step_case2 M g s y x (straddlePeak M g s y x) d hg hs (by omega) c5 hy hx h3
          htri hfut hprev ?_ ?_
        · exact straddlePeak_zero M g s y x hs hy hx (by omega) h1 h2
        · intro hgd
          exact straddlePeak_guard M g s y x hg hs hy hx h2 hgd
      · rw [if_neg c5]
        exact step_case3 M g s y x d hg hs (by omega) hy hx h1 h2 hfut hprev

/-- Induction over the samples of one band: starting from a state whose
band rows are zero at and after column `x0*sampling` and whose previous
sample's column sum is correct, processing samples `x0, …, cols-1`
establishes the reconstruction sum for every later sample. -/
lemma interpX_band (M : List (List ℚ)) (g s y : ℕ)
    (hg : 0 < g) (hs : 0 < s) (hy : y < mrows M)
    (h1 : ∀ y' x', y' < mrows M → x' < mcols M → 0 ≤ mget M y' x')
    (h2 : ∀ y' x', y' < mrows M → x' + 1 < mcols M → mget M y' (x' + 1) ≤ mget M y' x')
    (h3 : ∀ y' x', y' < mrows M → x' < mcols M → (x' + 1) * s ≤ y' * g → mget M y' x' = 0) :
    ∀ (n x0 : ℕ) (d : Daily), x0 + n = mcols M →
      (∀ i j', j' < i → d i j' = 0) →
      (∀ i, y * g ≤ i → i < (y + 1) * g → ∀ j, x0 * s ≤ j → d i j = 0) →
      (0 < x0 → bandSum g y d (x0 * s - 1) = mget M y (x0 - 1)) →
      ∀ x', x0 ≤ x' → x' < mcols M →
        bandSum g y (interpX M g s y x0 n d) ((x' + 1) * s - 1) = mget M y x' := by
  intro n
  induction n with
  | zero =>
      intro x0 d hcols htri hfut hprev x' hx'1 hx'2
      omega
  | succ n ih =>
      intro x0 d hcols htri hfut hprev x' hx'1 hx'2
      have e1 : (x0 + 1) * s = x0 * s + s := by ring
      rw [interpX]
      have hx0 : x0 < mcols M := by omega
      set d' := processCell M g s y x0 d with hd'
      have htri' : ∀ i j', j' < i → d' i j' = 0 := by
        intro i j' hij
        rw [hd', processCell_frame M g s y x0 d i j' (by omega)]
        exact htri i j' hij
      have hfut' : ∀ i, y * g ≤ i → i < (y + 1) * g → ∀ j, (x0 + 1) * s ≤ j → d' i j = 0 := by
        intro i hi1 hi2 j hj
        rw [hd', processCell_frame M g s y x0 d i j (by omega)]
        exact hfut i hi1 hi2 j (by omega)
      have hstep : bandSum g y d' ((x0 + 1) * s - 1) = mget M y x0 :=
        processCell_step M g s y x0 d hg hs hy hx0 h1 h2 h3 htri hfut hprev
      by_cases hxx : x' = x0
      · subst hxx
        have hframe : bandSum g y (interpX M g s y (x' + 1) n d') ((x' + 1) * s - 1) =
            bandSum g y d' ((x' + 1) * s - 1) := by
          refine Finset.sum_congr rfl ?_
          intro i _
          exact interpX_frame M g s y n (x' + 1) d' i _ (by omega)
        rw [hframe]
        exact hstep
      · refine ih (x0 + 1) d' (by omega) htri' hfut' ?_ x' (by omega) hx'2
        intro _
        simpa using hstep

/-- On the rows of band `y`, the full interpolation equals the band's
own inner loop run on the state left by the earlier bands. -/
lemma interpY_band (M : List (List ℚ)) (g s : ℕ) :
    ∀ (m y0 : ℕ) (d : Daily) (y : ℕ), y0 ≤ y → y < y0 + m →
      ∀ i j, y * g ≤ i → i < (y + 1) * g →
        interpY M g s y0 m d i j =
          interpX M g s y 0 (mcols M) (interpY M g s y0 (y - y0) d) i j := by
  intro m
  induction m with
  | zero =>
      intro y0 d y h1 h2
      omega
  | succ m ih =>
      intro y0 d y h1 h2 i j hi1 hi2
      rw [interpY]
      by_cases hyy : y = y0
      · subst hyy
        have hlater : interpY M g s (y + 1) m (interpX M g s y 0 (mcols M) d) i j =
            interpX M g s y 0 (mcols M) d i j := by
          refine interpY_frame_lo M g s m (y + 1) _ i j ?_
          have e2 : (y + 1) * g = y * g + g := by ring
          omega
        rw [hlater]
        have h0 : y - y = 0 := by omega
        rw [h0]
        rfl
      · have hstep : y - y0 = (y - (y0 + 1)) + 1 := by omega
        rw [ih (y0 + 1) _ y (by omega) (by omega) i j hi1 hi2, hstep, interpY]

/-- Reconstruction of the whole matrix: for a rectangular burndown
matrix with nonnegative entries, non-increasing rows and structural
zeros in the future region, the band-rows sum of the interpolated daily
matrix at the last daily column of sample `x` recovers `matrix[y][x]`
exactly, for every band and sample. -/
lemma interpolate_bandSum (M : List (List ℚ)) (g s : ℕ)
    (hg : 0 < g) (hs : 0 < s)
    (h1 : ∀ y' x', y' < mrows M → x' < mcols M → 0 ≤ mget M y' x')
    (h2 : ∀ y' x', y' < mrows M → x' + 1 < mcols M → mget M y' (x' + 1) ≤ mget M y' x')
    (h3 : ∀ y' x', y' < mrows M → x' < mcols M → (x' + 1) * s ≤ y' * g → mget M y' x' = 0)
    (y x : ℕ) (hy : y < mrows M) (hx : x < mcols M) :
    bandSum g y (interpolate_burndown_matrix M g s) ((x + 1) * s - 1) = mget M y x := by
  set S : Daily := interpY M g s 0 y (fun _ _ => 0) with hS
  have hdecomp : ∀ i j, y * g ≤ i → i < (y + 1) * g →
      interpolate_burndown_matrix M g s i j = interpX M g s y 0 (mcols M) S i j := by
    intro i j hi1 hi2
    rw [interpolate_burndown_matrix]
    have := interpY_band M g s (mrows M) 0 (fun _ _ => 0) y (by omega) (by omega) i j hi1 hi2
    simpa using this
  have htriS : ∀ i j', j' < i → S i j' = 0 :=
    interpY_tri M g s y 0 (fun _ _ => 0) (fun _ _ _ => rfl)
  have hfutS : ∀ i, y * g ≤ i → i < (y + 1) * g → ∀ j, 0 * s ≤ j → S i j = 0 := by
    intro i hi1 hi2 j _
    rw [hS, interpY_frame_hi M g s y 0 _ i j (by simpa using hi1)]
  have hsum := interpX_band M g s y hg hs hy h1 h2 h3 (mcols M) 0 S (by omega) htriS hfutS
    (fun h => absurd h (by omega)) x (by omega) hx
  have hcongr : bandSum g y (interpolate_burndown_matrix M g s) ((x + 1) * s - 1) =
      bandSum g y (interpX M g s y 0 (mcols M) S) ((x + 1) * s - 1) := by
    refine Finset.sum_congr rfl ?_
    intro i hi
    rw [Finset.mem_Ico] at hi
    exact hdecomp i _ hi.1 hi.2
  rw [hcongr]
  exact hsum

/-- C9: for every input matrix and every granularity > 0 and
sampling > 0, the daily matrix produced by
`interpolate_burndown_matrix` is weakly upper-triangular: `daily[i][j]`
is `0` whenever `i > j`, and processing any cell never writes a cell
whose row index exceeds its column index (so every write performed by
`grow` — including its back-propagation loop —, by `decay`, and by the
case-1 uniform fill targets a row index at most the column index). -/
theorem claim_C9 (M : List (List ℚ)) (g s : ℕ) (hg : 0 < g) (hs : 0 < s) :
    (∀ i j, j < i → interpolate_burndown_matrix M g s i j = 0) ∧
    (∀ y x d i j, j < i → processCell M g s y x d i j = d i j) := by
  constructor
  · intro i j hij
    rw [interpolate_burndown_matrix]
    exact interpY_tri M g s (mrows M) 0 _ (fun _ _ _ => rfl) i j hij
  · intro y x d i j hij
    exact processCell_frame M g s y x d i j (by omega)

/-- Witness for C9 at the concrete input `[[4, 2]]`,
granularity 1, sampling 1 and the cell below the diagonal `(1, 0)`. -/
theorem claim_C9_witness :
    0 < 1 ∧ 0 < 1 ∧
    ((∀ i j, j < i → interpolate_burndown_matrix [[4, 2]] 1 1 i j = 0) ∧
      (∀ y x d i j, j < i → processCell [[4, 2]] 1 1 y x d i j = d i j)) :=
  ⟨Nat.one_pos, Nat.one_pos, claim_C9 [[4, 2]] 1 1 Nat.one_pos Nat.one_pos⟩

/-- C1 counterexample: the matrix `[[6]]` with granularity 1 and
sampling 2 has nonnegative (and non-increasing) values, yet summing the
1×2 block of daily cells aligned with cell `(0, 0)` gives `9 + 6 = 15`,
not `6` within `1e-3` relative tolerance: the block-sum aggregation of
the claim does not reconstruct `matrix[y][x]`. -/
theorem claim_C1_counterexample :
    (0 : ℚ) ≤ mget [[6]] 0 0 ∧
    ¬ |(interpolate_burndown_matrix [[6]] 1 2 0 0 +
        interpolate_burndown_matrix [[6]] 1 2 0 1) - mget [[6]] 0 0|
      ≤ (1 / 1000) * |mget [[6]] 0 0| := by
  have hval : interpolate_burndown_matrix [[6]] 1 2 0 0 +
      interpolate_burndown_matrix [[6]] 1 2 0 1 = 15 := by
    simp [interpolate_burndown_matrix, interpY, interpX, processCell, mrows, mcols,
      grow, decay, straddlePeak, straddleBasePeak, straddlePrevScale, mget, mgetz,
      decayI, decayJ, fillTriJ, fillColRows, copyJ, copyColRows, upd]
    norm_num [upd]
  constructor
  · norm_num [mget]
  · rw [hval]
    norm_num [mget]

/-- C1 (amended): for every rectangular burndown matrix with at least
one band and one sample, nonnegative entries, non-increasing rows,
structural zeros on cells entirely in the future
(`(x+1)*sampling ≤ y*granularity`), and no straddle cell whose `scale`
divisor is zero (at such cells the exact-arithmetic model diverges from
numpy's `inf`/`nan` float division), aggregating the daily matrix
returned by `interpolate_burndown_matrix` over the band's rows
`[y*granularity, (y+1)*granularity)` at the last daily column of sample
`x` (column `(x+1)*sampling - 1`) reproduces `matrix[y][x]` exactly —
in particular within `1e-3` relative tolerance — for every band `y` and
sample `x`. -/
theorem claim_C1_amended (M : List (List ℚ)) (g s : ℕ)
    (hg : 0 < g) (hs : 0 < s)
    (hrows : 0 < mrows M) (hcols : 0 < mcols M)
    (hwf : ∀ row ∈ M, row.length = mcols M)
    (h1 : ∀ y x, y < mrows M → x < mcols M → 0 ≤ mget M y x)
    (h2 : ∀ y x, y < mrows M → x + 1 < mcols M → mget M y (x + 1) ≤ mget M y x)
    (h3 : ∀ y x, y < mrows M → x < mcols M → (x + 1) * s ≤ y * g → mget M y x = 0)
    (hdiv : ∀ y x, y < mrows M → x < mcols M → cellCase g s y x = 2 →
      (straddlePrevScale M g s y x).2 ≠ 0)
    (y x : ℕ) (hy : y < mrows M) (hx : x < mcols M) :
    bandSum g y (interpolate_burndown_matrix M g s) ((x + 1) * s - 1) = mget M y x :=
  interpolate_bandSum M g s hg hs h1 h2 h3 y x hy hx

/-- Witness for the amended C1 at the concrete input `[[4, 2]]`,
granularity 1, sampling 1, band 0, sample 1. -/
theorem claim_C1_amended_witness :
    (0 < 1 ∧ 0 < 1 ∧ 0 < mrows [[(4 : ℚ), 2]] ∧ 0 < mcols [[(4 : ℚ), 2]] ∧
      (∀ row ∈ [[(4 : ℚ), 2]], row.length = mcols [[(4 : ℚ), 2]]) ∧
      (∀ y x, y < mrows [[(4 : ℚ), 2]] → x < mcols [[(4 : ℚ), 2]] →
        0 ≤ mget [[(4 : ℚ), 2]] y x) ∧
      (∀ y x, y < mrows [[(4 : ℚ), 2]] → x + 1 < mcols [[(4 : ℚ), 2]] →
        mget [[(4 : ℚ), 2]] y (x + 1) ≤ mget [[(4 : ℚ), 2]] y x) ∧
      (∀ y x, y < mrows [[(4 : ℚ), 2]] → x < mcols [[(4 : ℚ), 2]] →
        (x + 1) * 1 ≤ y * 1 → mget [[(4 : ℚ), 2]] y x = 0) ∧
      (∀ y x, y < mrows [[(4 : ℚ), 2]] → x < mcols [[(4 : ℚ), 2]] →
        cellCase 1 1 y x = 2 → (straddlePrevScale [[(4 : ℚ), 2]] 1 1 y x).2 ≠ 0) ∧
      1 < mcols [[(4 : ℚ), 2]]) ∧
    bandSum 1 0 (interpolate_burndown_matrix [[(4 : ℚ), 2]] 1 1) ((1 + 1) * 1 - 1)
      = mget [[(4 : ℚ), 2]] 0 1 := by
  have h1 : ∀ y x, y < mrows [[(4 : ℚ), 2]] → x < mcols [[(4 : ℚ), 2]] →
      0 ≤ mget [[(4 : ℚ), 2]] y x := by
    intro y x hy hx
    simp [mrows, Nat.lt_one_iff] at hy
    subst hy
    simp [mcols] at hx
    interval_cases x <;> norm_num [mget]
  have h2 : ∀ y x, y < mrows [[(4 : ℚ), 2]] → x + 1 < mcols [[(4 : ℚ), 2]] →
      mget [[(4 : ℚ), 2]] y (x + 1) ≤ mget [[(4 : ℚ), 2]] y x := by
    intro y x hy hx
    simp [mrows, Nat.lt_one_iff] at hy
    subst hy
    have hx0 : x = 0 := by
      simp [mcols] at hx
      omega
    subst hx0
    norm_num [mget]
  have h3 : ∀ y x, y < mrows [[(4 : ℚ), 2]] → x < mcols [[(4 : ℚ), 2]] →
      (x + 1) * 1 ≤ y * 1 → mget [[(4 : ℚ), 2]] y x = 0 := by
    intro y x hy hx hc
    simp [mrows] at hy
    omega
  have hdiv : ∀ y x, y < mrows [[(4 : ℚ), 2]] → x < mcols [[(4 : ℚ), 2]] →
      cellCase 1 1 y x = 2 → (straddlePrevScale [[(4 : ℚ), 2]] 1 1 y x).2 ≠ 0 := by
    intro y x hy hx hc
    simp [mrows, Nat.lt_one_iff] at hy
    subst hy
    simp [mcols] at hx
    interval_cases x <;> first
      | simp_all [cellCase, straddlePrevScale]
      | decide
  exact ⟨⟨Nat.one_pos, Nat.one_pos, by decide, by decide, by decide, h1, h2, h3, hdiv,
      by decide⟩,
    claim_C1_amended [[(4 : ℚ), 2]] 1 1 Nat.one_pos Nat.one_pos (by decide) (by decide)
      (by decide) h1 h2 h3 hdiv 0 1 (by decide) (by decide)⟩

/-- C5 counterexample: on `[[5, 3, 3, 3]]` with granularity 2 and
sampling 1, the first row of the daily matrix is `5` at both the
sample-0 and the sample-1 boundary columns: it does not strictly
decrease between samples 0 and 1 and does not reach `3` at the sample-1
boundary column (the value `3` is only reached by the column sum over
the band's two rows, the second row holding `-2`). -/
theorem claim_C5_counterexample :
    interpolate_burndown_matrix [[5, 3, 3, 3]] 2 1 0 0 = 5 ∧
    interpolate_burndown_matrix [[5, 3, 3, 3]] 2 1 0 1 = 5 := by
  constructor <;>
  simp [interpolate_burndown_matrix, interpY, interpX, processCell, mrows, mcols,
    grow, decay, straddlePeak, straddleBasePeak, straddlePrevScale, mget, mgetz,
    decayI, decayJ, fillTriJ, fillColRows, copyJ, copyColRows, upd]

/-- C5 (amended): on `[[5, 3, 3, 3]]` with granularity 2 and
sampling 1, the column sums of the daily matrix over the band's rows
strictly decrease from `5` at the sample-0 boundary to exactly `3` at
the sample-1 boundary column, and stay `3` afterwards; the run
exercises the pure-decay regime (case 3) at cell `(0, 3)`. -/
theorem claim_C5_amended :
    bandSum 2 0 (interpolate_burndown_matrix [[5, 3, 3, 3]] 2 1) 0 = 5 ∧
    bandSum 2 0 (interpolate_burndown_matrix [[5, 3, 3, 3]] 2 1) 1 = 3 ∧
    bandSum 2 0 (interpolate_burndown_matrix [[5, 3, 3, 3]] 2 1) 2 = 3 ∧
    bandSum 2 0 (interpolate_burndown_matrix [[5, 3, 3, 3]] 2 1) 3 = 3 ∧
    cellCase 2 1 0 3 = 3 := by
  refine ⟨?_, ?_, ?_, ?_, by decide⟩ <;>
    (rw [bandSum]
     rw [Finset.sum_Ico_succ_top (by norm_num), Finset.sum_Ico_succ_top (by norm_num),
       Finset.Ico_self, Finset.sum_empty]
     simp [interpolate_burndown_matrix, interpY, interpX, processCell, mrows, mcols,
       grow, decay, straddlePeak, straddleBasePeak, straddlePrevScale, mget, mgetz,
       decayI, decayJ, fillTriJ, fillColRows, copyJ, copyColRows, upd])

/-- C6: whenever `decay(start_index, start_val)` is invoked while
processing cell `(y, x)` (so `1 ≤ start_index < (x+1)*sampling`), then:
if `start_val = 0` the call writes nothing; otherwise every row `i` in
`[y*granularity, (y+1)*granularity)` and column `j` in
`[start_index, (x+1)*sampling)` is set to
`daily[i][start_index-1] * (1 + (k-1)*(j-start_index+1)/scale)` with
`k = matrix[y][x]/start_val` and `scale = (x+1)*sampling - start_index`,
no cell outside that range is written, and the multiplicative ratio
reaches exactly `k` at the last column of the interval. -/
theorem claim_C6 (M : List (List ℚ)) (g s y x start : ℕ) (sval : ℚ) (d : Daily)
    (hs : 0 < s) (hstart1 : 1 ≤ start) (hstart2 : start < (x + 1) * s) :
    (sval = 0 → decay M g s y x start sval d = d) ∧
    (sval ≠ 0 → ∀ i j, decay M g s y x start sval d i j =
      if y * g ≤ i ∧ i < (y + 1) * g ∧ start ≤ j ∧ j < (x + 1) * s then
        d i (start - 1) *
          (1 + (mget M y x / sval - 1) * (((j : ℤ) - (start : ℤ) + 1 : ℤ) : ℚ) /
            ((((x + 1) * s : ℤ) - (start : ℤ) : ℤ) : ℚ))
      else d i j) ∧
    (1 + (mget M y x / sval - 1) *
        ((((x + 1) * s - 1 : ℕ) : ℤ) - (start : ℤ) + 1 : ℤ) /
        ((((x + 1) * s : ℤ) - (start : ℤ) : ℤ) : ℚ) = mget M y x / sval) := by
  refine ⟨?_, ?_, ?_⟩
  · intro h0
    funext i j
    rw [decay_apply, if_pos h0]
  · intro h0 i j
    rw [decay_apply, if_neg h0]
  · exact decay_ratio_last s x start (mget M y x / sval) hs hstart2

/-- Witness for C6 at the concrete invocation context of cell `(0, 1)`
of `[[4, 2]]` with granularity 1, sampling 1, `start_index = 1`,
`start_val = 4`. -/
theorem claim_C6_witness :
    (0 < 1 ∧ 1 ≤ 1 ∧ 1 < (1 + 1) * 1) ∧
    ((4 : ℚ) = 0 → decay [[4, 2]] 1 1 0 1 1 4 (fun _ _ => 0) = (fun _ _ => 0)) ∧
    ((4 : ℚ) ≠ 0 → ∀ i j, decay [[4, 2]] 1 1 0 1 1 4 (fun _ _ => 0) i j =
      if 0 * 1 ≤ i ∧ i < (0 + 1) * 1 ∧ 1 ≤ j ∧ j < (1 + 1) * 1 then
        (fun _ _ => (0 : ℚ)) i (1 - 1) *
          (1 + (mget [[4, 2]] 0 1 / 4 - 1) * (((j : ℤ) - ((1 : ℕ) : ℤ) + 1 : ℤ) : ℚ) /
            ((((1 + 1) * 1 : ℤ) - ((1 : ℕ) : ℤ) : ℤ) : ℚ))
      else (fun _ _ => (0 : ℚ)) i j) ∧
    (1 + (mget [[4, 2]] 0 1 / 4 - 1) *
        ((((1 + 1) * 1 - 1 : ℕ) : ℤ) - ((1 : ℕ) : ℤ) + 1 : ℤ) /
        ((((1 + 1) * 1 : ℤ) - ((1 : ℕ) : ℤ) : ℤ) : ℚ) = mget [[4, 2]] 0 1 / 4) :=
  ⟨⟨Nat.one_pos, le_refl 1, by norm_num⟩,
    claim_C6 [[4, 2]] 1 1 0 1 1 4 (fun _ _ => 0) Nat.one_pos (le_refl 1) (by norm_num)⟩

/-- C7: for every cell `(y, x)` classified into the straddle case
(case 2) where the current value `v2 = matrix[y][x]` exceeds the
extrapolated peak, the interpolator re-derives the peak as
`matrix[y][x] + k * ((x+1)*sampling - (y+1)*granularity)` with
`k = (v2 - matrix[y][x+1]) / sampling` when `x` is not the last sample
and falls back to `peak = v2` when it is; in either sub-case it then
calls `grow((y+1)*granularity, peak)` followed by
`decay((y+1)*granularity, peak)` (the model is a total function, so no
error reaches the caller on such non-monotone input). -/
theorem claim_C7 (M : List (List ℚ)) (g s y x : ℕ) (d : Daily)
    (hreach : ¬ y * g > (x + 1) * s)
    (hc2a : ¬ (y + 1) * g ≥ (x + 1) * s)
    (hc2b : (y + 1) * g ≥ x * s)
    (hadj : mget M y x > straddleBasePeak M g s y x) :
    processCell M g s y x d =
      decay M g s y x ((y + 1) * g) (straddlePeak M g s y x)
        (grow M g s y x ((y + 1) * g) (straddlePeak M g s y x) d) ∧
    straddlePeak M g s y x =
      (if x < mcols M - 1 then
        mget M y x + ((mget M y x - mget M y (x + 1)) / (s : ℚ)) *
          (((((x + 1) * s : ℕ) : ℤ) - (((y + 1) * g : ℕ) : ℤ) : ℤ) : ℚ)
      else mget M y x) := by
  constructor
  · rw [processCell, if_neg hreach, if_neg hc2a, if_pos hc2b]
  · rw [straddlePeak]
    rw [if_pos hadj]
  
/-- Witness for C7 at the concrete non-monotone input `[[0, 7]]` with
granularity 1 and sampling 1, cell `(0, 1)`. -/
theorem claim_C7_witness :
    (¬ 0 * 1 > (1 + 1) * 1 ∧ ¬ (0 + 1) * 1 ≥ (1 + 1) * 1 ∧ (0 + 1) * 1 ≥ 1 * 1 ∧
      mget [[0, 7]] 0 1 > straddleBasePeak [[0, 7]] 1 1 0 1) ∧
    (processCell [[0, 7]] 1 1 0 1 (fun _ _ => 0) =
      decay [[0, 7]] 1 1 0 1 ((0 + 1) * 1) (straddlePeak [[0, 7]] 1 1 0 1)
        (grow [[0, 7]] 1 1 0 1 ((0 + 1) * 1) (straddlePeak [[0, 7]] 1 1 0 1)
          (fun _ _ => 0)) ∧
    straddlePeak [[0, 7]] 1 1 0 1 =
      (if 1 < mcols [[(0 : ℚ), 7]] - 1 then
        mget [[0, 7]] 0 1 + ((mget [[0, 7]] 0 1 - mget [[0, 7]] 0 (1 + 1)) / (1 : ℚ)) *
          (((((1 + 1) * 1 : ℕ) : ℤ) - (((0 + 1) * 1 : ℕ) : ℤ) : ℤ) : ℚ)
      else mget [[0, 7]] 0 1)) := by
  have hadj : mget [[(0 : ℚ), 7]] 0 1 > straddleBasePeak [[0, 7]] 1 1 0 1 := by
    norm_num [mget, straddleBasePeak, straddlePrevScale, mgetz, Int.reduceToNat]
  exact ⟨⟨by norm_num, by norm_num, by norm_num, hadj⟩,
    claim_C7 [[0, 7]] 1 1 0 1 (fun _ _ => 0) (by norm_num) (by norm_num) (by norm_num) hadj⟩

/-- C4 counterexample: with granularity 1 and sampling 2 the cell
`(y, x) = (2, 1)` of a 3×2 matrix is classified into the straddle case
and is reached (it is inside the matrix), and the `scale` divisor
computed by the straddle case's `else` branch is `x*sampling -
y*granularity = 0`: the interpolator does perform a division whose
divisor is zero at its use site. -/
theorem claim_C4_counterexample :
    2 < mrows [[(1 : ℚ), 1], [1, 1], [1, 1]] ∧
    1 < mcols [[(1 : ℚ), 1], [1, 1], [1, 1]] ∧
    cellCase 1 2 2 1 = 2 ∧
    (straddlePrevScale [[(1 : ℚ), 1], [1, 1], [1, 1]] 1 2 2 1).2 = 0 := by
  refine ⟨by decide, by decide, by decide, ?_⟩
  decide

/-- C4 (amended): for every matrix and granularity > 0, sampling > 0,
the interpolator raises no exception (the model is total), `decay`
returns early when `start_val = 0` and `grow` returns early when
`finish_index = start_index`; but the straddle-case `scale` divisor is
not always nonzero: for a cell classified into case 2 it is zero
exactly when `x > 0`, `(x-1)*sampling < y*granularity` and
`x*sampling = y*granularity` — a reachable configuration at which numpy
performs a float division by zero (yielding `inf`/`nan` with a runtime
warning rather than an exception). -/
theorem claim_C4_amended (M : List (List ℚ)) (g s y x : ℕ) (hs : 0 < s)
    (hc2 : cellCase g s y x = 2) :
    ((straddlePrevScale M g s y x).2 = 0 ↔
      0 < x ∧ (x - 1) * s < y * g ∧ x * s = y * g) ∧
    (∀ start d, decay M g s y x start 0 d = d) ∧
    (∀ fval d, grow M g s y x (if x * s < y * g then y * g else x * s) fval d = d) := by
  refine ⟨?_, ?_, ?_⟩
  · rw [straddlePrevScale]
    by_cases hb : 0 < x ∧ (x - 1) * s ≥ y * g
    · rw [if_pos hb]
      constructor
      · intro h
        exfalso
        omega
      · rintro ⟨_, h2, _⟩
        exact absurd hb.2 (by omega)
    · rw [if_neg hb]
      by_cases hx0 : x = 0
      · rw [if_pos hx0]
        constructor
        · intro h
          exfalso
          omega
        · rintro ⟨h1, _, _⟩
          omega
      · rw [if_neg hx0]
        constructor
        · intro h
          refine ⟨by omega, by omega, by omega⟩
        · rintro ⟨_, _, h3⟩
          omega
  · intro start d
    rw [decay, if_pos rfl]
  · intro fval d
    rw [grow, if_pos rfl]

/-- Witness for the amended C4 at the straddle cell `(0, 1)` of
`[[4, 2]]` with granularity 1, sampling 1. -/
theorem claim_C4_amended_witness :
    (0 < 1 ∧ cellCase 1 1 0 1 = 2) ∧
    (((straddlePrevScale [[(4 : ℚ), 2]] 1 1 0 1).2 = 0 ↔
      0 < 1 ∧ (1 - 1) * 1 < 0 * 1 ∧ 1 * 1 = 0 * 1) ∧
    (∀ start d, decay [[(4 : ℚ), 2]] 1 1 0 1 start 0 d = d) ∧
    (∀ fval d, grow [[(4 : ℚ), 2]] 1 1 0 1
      (if 1 * 1 < 0 * 1 then 0 * 1 else 1 * 1) fval d = d)) :=
  ⟨⟨Nat.one_pos, by decide⟩,
    claim_C4_amended [[(4 : ℚ), 2]] 1 1 0 1 Nat.one_pos (by decide)⟩

/-- C2 counterexample: on `[[10, 10, 5, 5, 0]]` the event arrays built
by `fit_kaplan_meier` contain two entries (one per decrease: 10→5 at
sample 2 and 5→0 at sample 4), not exactly one, and although no
censored entry is appended, both `E` flags end up `false`. -/
theorem claim_C2_counterexample :
    (fit_kaplan_meier_arrays [[10, 10, 5, 5, 0]]).1.length = 2 ∧
    (fit_kaplan_meier_arrays [[10, 10, 5, 5, 0]]).2.2.2 = 0 ∧
    ¬ ((fit_kaplan_meier_arrays [[10, 10, 5, 5, 0]]).1 = [2] ∧
      (fit_kaplan_meier_arrays [[10, 10, 5, 5, 0]]).2.1 = [5]) := by
  refine ⟨?_, ?_, ?_⟩ <;>
  norm_num [fit_kaplan_meier_arrays, kmStep, mget, mrows, mcols, List.range_succ,
    List.filterMap_cons, List.filterMap_nil, List.getD]

/-- C2 (amended): on `[[10, 10, 5, 5, 0]]` the event arrays built by
`fit_kaplan_meier` before the external fit contain exactly two death
entries, `(T, W) = (2, 5)` and `(4, 5)`, and no censored entries; but
because the censored count is zero, the slice assignment `E[-0:] = 0`
covers the whole array, so both `E` flags are `false` rather than
`true`. -/
theorem claim_C2_amended :
    fit_kaplan_meier_arrays [[10, 10, 5, 5, 0]] = ([2, 4], [5, 5], [false, false], 0) := by
  norm_num [fit_kaplan_meier_arrays, kmStep, mget, mrows, mcols, List.range_succ,
    List.filterMap_cons, List.filterMap_nil, List.getD]

/-- **C3** (counterexample).  The claim says requesting `"year"` never
raises an error and that the fallback cascade is year → month → day.
In the source the only fallback is the single recursive call
`load_burndown(header, name, matrix, "month", ...)` taken when the
first `"A"` boundary exceeds `finish`; there is no `"day"` step, and
when the first month boundary also exceeds `finish` the month attempt
raises `ValueError("Too loose resampling: M. Try finer.")`.  Concretely:
start 2020-06-15 00:00 UTC (1592179200) with a 1×1 matrix, daily
sampling and tick 86400 gives `finish` = 2020-06-16, which is below both
the year boundary 2020-12-31 and the month boundary 2020-06-30, so the
`"year"` request errors. -/
theorem claim_C3_counterexample :
    load_burndown ⟨1592179200, 1592182800, 1, 1, 86400⟩ "hercules" [[5]] "year" =
      Except.error "Too loose resampling: M. Try finer." := by
  rw [load_burndown.eq_def, load_burndown.eq_def]
  rfl

/-- **C3** (amended).  For every header with positive sampling and
granularity and every matrix, whenever the first `"A"` (year-end)
boundary on or after the floored start exceeds `finish` — in particular
whenever the data range does not reach the next December 31 — requesting
`"year"` returns exactly the result of requesting `"month"` on the same
arguments: the fallback cascade is year → month only, and any error of
the month attempt (there is no `"day"` step) propagates unchanged. -/
theorem claim_C3_amended (header : Header) (name : String) (M : List (List ℚ))
    (hs : 0 < header.sampling) (hg : 0 < header.granularity)
    (hfall : finishTs header M <
      (dgsList (floorStart header) (finishTs header M) "A").headD (floorStart header)) :
    load_burndown header name M "year" = load_burndown header name M "month" := by
  conv_lhs => rw [load_burndown.eq_def]
  rw [if_neg (not_not_intro hs), if_neg (not_not_intro hg)]
  rw [if_pos (by decide : ¬ (("year" : String) = "no" ∨ ("year" : String) = "raw"))]
  have e : resampleAlias "year" = "A" := rfl
  rw [e]
  rw [if_pos hfall]
  rw [dif_pos rfl]

/-- **C3** witness: a four-day range starting 2020-06-29 00:00 UTC does
not reach 2020-12-31, so the `"year"` request equals the `"month"`
request (which here succeeds, with June and July bands). -/
theorem claim_C3_amended_witness :
    (0 : ℤ) < (⟨1593388800, 1593734400, 1, 1, 86400⟩ : Header).sampling ∧
    finishTs ⟨1593388800, 1593734400, 1, 1, 86400⟩ [[5, 5, 3, 3]] <
      (dgsList (floorStart ⟨1593388800, 1593734400, 1, 1, 86400⟩)
        (finishTs ⟨1593388800, 1593734400, 1, 1, 86400⟩ [[5, 5, 3, 3]]) "A").headD
        (floorStart ⟨1593388800, 1593734400, 1, 1, 86400⟩) ∧
    load_burndown ⟨1593388800, 1593734400, 1, 1, 86400⟩ "hercules" [[5, 5, 3, 3]] "year" =
      load_burndown ⟨1593388800, 1593734400, 1, 1, 86400⟩ "hercules" [[5, 5, 3, 3]] "month" :=
  ⟨by decide, by decide,
    claim_C3_amended _ "hercules" _ (by decide) (by decide) (by decide)⟩

/-- **C8**.  Precondition failure is atomic: for every header with
sampling ≤ 0 or granularity ≤ 0, `load_burndown` stops at the failing
`assert` (sampling is checked first) and returns that exact assertion
error deterministically; the result does not depend on the matrix, so
no interpolation is performed and no partial result is produced. -/
theorem claim_C8 (header : Header) (name : String) (M M2 : List (List ℚ))
    (resample : String) (h : header.sampling ≤ 0 ∨ header.granularity ≤ 0) :
    load_burndown header name M resample =
      (if header.sampling ≤ 0 then Except.error "AssertionError: sampling > 0"
        else Except.error "AssertionError: granularity > 0") ∧
    load_burndown header name M resample = load_burndown header name M2 resample := by
  have key : ∀ M0 : List (List ℚ), load_burndown header name M0 resample =
      (if header.sampling ≤ 0 then Except.error "AssertionError: sampling > 0"
        else Except.error "AssertionError: granularity > 0") := by
    intro M0
    rw [load_burndown.eq_def]
    by_cases h1 : 0 < header.sampling
    · have h2 : ¬ 0 < header.granularity := by rcases h with h | h <;> omega
      rw [if_neg (not_not_intro h1), if_pos h2, if_neg (by omega : ¬ header.sampling ≤ 0)]
    · rw [if_pos h1, if_pos (by omega : header.sampling ≤ 0)]
  exact ⟨key M, (key M).trans (key M2).symm⟩

/-- **C8** witness: granularity 0 yields the granularity assertion error
on two different matrices. -/
theorem claim_C8_witness :
    ((⟨0, 0, 1, 0, 86400⟩ : Header).sampling ≤ 0 ∨
      (⟨0, 0, 1, 0, 86400⟩ : Header).granularity ≤ 0) ∧
    (load_burndown ⟨0, 0, 1, 0, 86400⟩ "hercules" [[5]] "year" =
      (if (⟨0, 0, 1, 0, 86400⟩ : Header).sampling ≤ 0 then
        Except.error "AssertionError: sampling > 0"
        else Except.error "AssertionError: granularity > 0") ∧
      load_burndown ⟨0, 0, 1, 0, 86400⟩ "hercules" [[5]] "year" =
        load_burndown ⟨0, 0, 1, 0, 86400⟩ "hercules" [[1, 2], [3]] "year") :=
  ⟨by decide, claim_C8 _ "hercules" [[5]] [[1, 2], [3]] "year" (by decide)⟩

/-- **C10**.  Raw-mode result: for every valid header and matrix,
requesting `"no"` or `"raw"` skips the interpolation entirely, returns
the input matrix unchanged, and reports the effective resample mode as
the string `"M"` — never the requested `"no"`/`"raw"` — so the returned
mode cannot distinguish raw mode from month-resampled mode. -/
theorem claim_C10 (header : Header) (name : String) (M : List (List ℚ)) (resample : String)
    (hr : resample = "no" ∨ resample = "raw")
    (hs : 0 < header.sampling) (hg : 0 < header.granularity) :
    ∃ res : BurndownResult,
      load_burndown header name M resample = Except.ok res ∧
      res.matrix = M ∧ res.resample = "M" := by
  rw [load_burndown.eq_def]
  rw [if_neg (not_not_intro hs), if_neg (not_not_intro hg)]
  rw [if_neg (not_not_intro hr)]
  exact ⟨_, rfl, rfl, rfl⟩

/-- **C10** witness: `"raw"` on a 1×1 matrix returns it unchanged with
mode `"M"`. -/
theorem claim_C10_witness :
    ((("raw" : String) = "no" ∨ ("raw" : String) = "raw") ∧
      (0 : ℤ) < (⟨1592179200, 1592182800, 1, 1, 86400⟩ : Header).sampling) ∧
    ∃ res : BurndownResult,
      load_burndown ⟨1592179200, 1592182800, 1, 1, 86400⟩ "hercules" [[5]] "raw" =
        Except.ok res ∧ res.matrix = [[5]] ∧ res.resample = "M" :=
  ⟨⟨Or.inr rfl, by decide⟩,
    claim_C10 _ "hercules" [[5]] "raw" (Or.inr rfl) (by decide) (by decide)⟩
